import Mathlib

/-!
# Verification of the heatmap city-ingestion pipeline

Shallow embedding of the ingestion pipeline of the `heatmap` repository
(`src/scripts/ingestCity.ts` and its libraries `rateLimiter.ts`,
`googlePlaces.ts`, `vibeScorer.ts`, `config.ts`) together with proofs of the
behavioural claims about it.

Modelling conventions:
* JavaScript strings are modelled as `List Char`.
* JavaScript numbers are modelled as rationals (`ℚ`); `NaN` is modelled as
  `none` in an `Option ℚ` where a computation can produce it.
* Asynchronous fallible operations are modelled as `Except`-valued functions;
  external services are oracles passed in explicitly.
* `Array.prototype.sort` (stable since ES2019) is modelled by a stable
  insertion sort: a stable sort against a total preorder has a unique result,
  so any stable sort models it faithfully.
-/

namespace Heatmap

/-- JavaScript strings, modelled as lists of characters. -/
abbrev JSStr := List Char

/-! ## Configuration constants (src/scripts/lib/config.ts) -/

/-- `MIN_REVIEW_COUNT` from config.ts: minimum review count to qualify. -/
def MIN_REVIEW_COUNT : ℚ := 10

/-- `TOP_VENUES_PER_CELL` from config.ts. -/
def TOP_VENUES_PER_CELL : Nat := 5

/-- `LLM_MODEL` from config.ts. -/
def LLM_MODEL : JSStr := "gpt-4.1-mini".toList

/-! ## Data model (src/scripts/lib/config.ts) -/

/-- `GooglePlace` from config.ts.  `displayName` models `displayName?.text`.
`location` models the optional coordinate pair. -/
structure GooglePlace where
  id : JSStr
  displayName : Option JSStr
  rating : Option ℚ
  userRatingCount : Option ℚ
  types : Option (List JSStr)
  location : Option (ℚ × ℚ)
  deriving DecidableEq, Repr

/-! ## Ranking (src/scripts/lib/googlePlaces.ts, `rankVenues`) -/

/-- The composite score `(a.userRatingCount || 0) * 0.7 + (a.rating || 0) * 0.3`
used by the `rankVenues` comparator.  A missing (or zero) rating or count
contributes `0`, exactly as the `|| 0` coercion does. -/
def compositeScore (p : GooglePlace) : ℚ :=
  p.userRatingCount.getD 0 * 0.7 + p.rating.getD 0 * 0.3

/-- One step of the stable descending insertion sort modelling the stable
`Array.prototype.sort` call in `rankVenues`: `x` passes over exactly the
entries with strictly greater composite score, so equal scores keep input
order. -/
def insertRanked (x : GooglePlace) : List GooglePlace → List GooglePlace
  | [] => [x]
  | y :: ys =>
      if compositeScore x < compositeScore y then y :: insertRanked x ys
      else x :: y :: ys

/-- `rankVenues` from googlePlaces.ts: sort a copy of the list descending by
`compositeScore`, stably. -/
def rankVenues (venues : List GooglePlace) : List GooglePlace :=
  venues.foldr insertRanked []

lemma insertRanked_perm (x : GooglePlace) (l : List GooglePlace) :
    (insertRanked x l).Perm (x :: l) := by
  induction l with
  | nil => simp [insertRanked]
  | cons y ys ih =>
      by_cases h : compositeScore x < compositeScore y
      · simpa [insertRanked, h] using ((ih.cons y).trans (List.Perm.swap x y ys))
      · simp [insertRanked, h]

lemma rankVenues_perm (l : List GooglePlace) : (rankVenues l).Perm l := by
  induction l with
  | nil => simp [rankVenues]
  | cons x xs ih =>
      exact (insertRanked_perm x (rankVenues xs)).trans (ih.cons x)

lemma insertRanked_sorted (x : GooglePlace) (l : List GooglePlace)
    (h : l.Pairwise (fun a b => compositeScore b ≤ compositeScore a)) :
    (insertRanked x l).Pairwise (fun a b => compositeScore b ≤ compositeScore a) := by
  induction l with
  | nil => simp [insertRanked]
  | cons y ys ih =>
      rcases List.pairwise_cons.1 h with ⟨hy, hys⟩
      simp only [insertRanked]
      by_cases hlt : compositeScore x < compositeScore y
      · rw [if_pos hlt]
        have hmem : ∀ z ∈ insertRanked x ys, z = x ∨ z ∈ ys := by
          intro z hz
          have := (insertRanked_perm x ys).mem_iff.1 hz
          simpa using this
        refine List.pairwise_cons.2 ⟨?_, ih hys⟩
        intro z hz
        rcases hmem z hz with rfl | hz'
        · exact le_of_lt hlt
        · exact hy z hz'
      · rw [if_neg hlt]
        refine List.pairwise_cons.2 ⟨?_, h⟩
        intro z hz
        rcases List.mem_cons.1 hz with rfl | hz'
        · exact le_of_not_lt hlt
        · exact le_trans (hy z hz') (le_of_not_lt hlt)

lemma rankVenues_sorted (l : List GooglePlace) :
    (rankVenues l).Pairwise (fun a b => compositeScore b ≤ compositeScore a) := by
  induction l with
  | nil => simp [rankVenues]
  | cons x xs ih => exact insertRanked_sorted x (rankVenues xs) ih

lemma insertRanked_filter_score (q : ℚ) (x : GooglePlace) (l : List GooglePlace) :
    (insertRanked x l).filter (fun v => decide (compositeScore v = q))
      = (x :: l).filter (fun v => decide (compositeScore v = q)) := by
  induction l with
  | nil => rfl
  | cons y ys ih =>
      simp only [insertRanked]
      by_cases hlt : compositeScore x < compositeScore y
      · rw [if_pos hlt]
        by_cases hx : compositeScore x = q
        · have hy : ¬ compositeScore y = q := by
            intro hy; exact absurd (hy.trans hx.symm) (ne_of_gt hlt)
          simp [List.filter_cons, hx, hy, ih]
        · simp [List.filter_cons, hx, ih]
      · rw [if_neg hlt]

lemma rankVenues_filter_score (q : ℚ) (l : List GooglePlace) :
    (rankVenues l).filter (fun v => decide (compositeScore v = q))
      = l.filter (fun v => decide (compositeScore v = q)) := by
  induction l with
  | nil => rfl
  | cons x xs ih =>
      have h1 := insertRanked_filter_score q x (rankVenues xs)
      simp only [rankVenues, List.foldr_cons] at h1 ⊢
      rw [h1, List.filter_cons, List.filter_cons]
      simp only [rankVenues] at ih
      rw [ih]

/-- Spec test venue A: rating 5, count 1. -/
def venueA : GooglePlace :=
  { id := "A".toList, displayName := none, rating := some 5,
    userRatingCount := some 1, types := none, location := none }

/-- Spec test venue B: rating 1, count 100. -/
def venueB : GooglePlace :=
  { id := "B".toList, displayName := none, rating := some 1,
    userRatingCount := some 100, types := none, location := none }

/-- C8: `rankVenues` returns the list sorted descending by the composite score
`0.7 × ratingCount + 0.3 × rating` (missing rating/count treated as 0), as a
permutation of the input; ties keep input order (stable, expressed as: the
sublist of venues at any fixed composite score is unchanged); and the venue
with rating 1 / count 100 ranks above the venue with rating 5 / count 1. -/
theorem rankVenues_spec :
    (∀ l : List GooglePlace,
        (rankVenues l).Perm l
        ∧ (rankVenues l).Pairwise (fun a b => compositeScore b ≤ compositeScore a)
        ∧ ∀ q : ℚ,
            (rankVenues l).filter (fun v => decide (compositeScore v = q))
              = l.filter (fun v => decide (compositeScore v = q)))
    ∧ rankVenues [venueA, venueB] = [venueB, venueA] := by
  constructor
  · intro l
    exact ⟨rankVenues_perm l, rankVenues_sorted l, fun q => rankVenues_filter_score q l⟩
  · norm_num [rankVenues, insertRanked, compositeScore, venueA, venueB]

/-! ## JavaScript whitespace, trimming (String.prototype.trim) -/

/-- The JavaScript whitespace set (`WhiteSpace` + `LineTerminator`), used by
`String.prototype.trim` and the regexp class `\s`. -/
def isJSWhitespace (c : Char) : Bool :=
  c = ' ' || c = '\t' || c = '\n' || c = '\x0b' || c = '\x0c' || c = '\r' ||
  c = '\u00A0' || c = '\u1680' || ('\u2000' ≤ c && c ≤ '\u200A') ||
  c = '\u2028' || c = '\u2029' || c = '\u202F' || c = '\u205F' ||
  c = '\u3000' || c = '\uFEFF'

/-- Drop leading JavaScript whitespace. -/
def trimLeft (s : JSStr) : JSStr := s.dropWhile isJSWhitespace

/-- Drop trailing JavaScript whitespace. -/
def trimRight (s : JSStr) : JSStr := (s.reverse.dropWhile isJSWhitespace).reverse

/-- `String.prototype.trim`. -/
def jsTrim (s : JSStr) : JSStr := trimRight (trimLeft s)

lemma dropWhile_length_eq {p : Char → Bool} {l : JSStr}
    (h : (l.dropWhile p).length = l.length) : l.dropWhile p = l := by
  induction l with
  | nil => rfl
  | cons c cs ih =>
      by_cases hc : p c
      · exfalso
        have hle := (List.dropWhile_suffix (l := cs) p).length_le
        simp [List.dropWhile_cons, hc] at h
        omega
      · simp [List.dropWhile_cons, hc]

lemma trimLeft_length_le (s : JSStr) : (trimLeft s).length ≤ s.length :=
  (List.dropWhile_suffix _).length_le

lemma trimRight_length_le (s : JSStr) : (trimRight s).length ≤ s.length := by
  have := (List.dropWhile_suffix (l := s.reverse) isJSWhitespace).length_le
  simpa [trimRight] using this

lemma jsTrim_length_le (s : JSStr) : (jsTrim s).length ≤ s.length :=
  le_trans (trimRight_length_le _) (trimLeft_length_le _)

/-- If the whole trim is the identity, so are both one-sided trims. -/
lemma trim_eq_self (s : JSStr) (h : jsTrim s = s) :
    trimLeft s = s ∧ trimRight s = s := by
  have h1 : (trimLeft s).length = s.length := by
    have hle := trimLeft_length_le s
    have hge : s.length ≤ (trimLeft s).length := by
      calc s.length = (jsTrim s).length := by rw [h]
        _ ≤ (trimLeft s).length := trimRight_length_le _
    omega
  have hL : trimLeft s = s := dropWhile_length_eq h1
  refine ⟨hL, ?_⟩
  have := h
  rw [jsTrim, hL] at this
  exact this

lemma trimLeft_idem (s : JSStr) : trimLeft (trimLeft s) = trimLeft s := by
  induction s with
  | nil => rfl
  | cons c cs ih =>
      by_cases hc : isJSWhitespace c
      · simp [trimLeft, List.dropWhile_cons, hc] at ih ⊢
        exact ih
      · simp [trimLeft, List.dropWhile_cons, hc]

/-- The left trim of a right trim needs no further right trim: `trimRight`
only removes a suffix, so the head of its nonempty result is the head of the
input. -/
lemma trimRight_head? (s : JSStr) (h : trimRight s ≠ []) :
    (trimRight s).head? = s.head? := by
  rw [trimRight] at h ⊢
  rcases hd : s.reverse.dropWhile isJSWhitespace with _ | ⟨c, cs⟩
  · simp [hd] at h
  · have hsub : s.reverse.dropWhile isJSWhitespace <:+ s.reverse :=
      List.dropWhile_suffix _
    rw [hd] at hsub
    rcases hsub with ⟨t, ht⟩
    have : s = cs.reverse ++ c :: t.reverse := by
      have := congrArg List.reverse ht
      simpa [List.reverse_append] using this.symm
    subst this
    simp [List.reverse_append]

lemma dropWhile_eq_self_of_head? (l : JSStr)
    (h : ∀ c, l.head? = some c → isJSWhitespace c = false) :
    l.dropWhile isJSWhitespace = l := by
  cases l with
  | nil => rfl
  | cons c cs => simp [List.dropWhile_cons, h c rfl]

lemma head?_trimLeft (s : JSStr) :
    ∀ c, (trimLeft s).head? = some c → isJSWhitespace c = false := by
  induction s with
  | nil => intro c hc; simp [trimLeft] at hc
  | cons a as ih =>
      intro c hc
      by_cases ha : isJSWhitespace a
      · exact ih c (by simpa [trimLeft, List.dropWhile_cons, ha] using hc)
      · simp [trimLeft, List.dropWhile_cons, ha] at hc
        subst hc
        simpa using ha

lemma jsTrim_idem (s : JSStr) : jsTrim (jsTrim s) = jsTrim s := by
  rw [jsTrim, jsTrim]
  by_cases h : trimRight (trimLeft s) = []
  · rw [h]; rfl
  · have hhead : ∀ c, (trimRight (trimLeft s)).head? = some c →
        isJSWhitespace c = false := by
      intro c hc
      rw [trimRight_head? _ h] at hc
      exact head?_trimLeft s c hc
    have hL : trimLeft (trimRight (trimLeft s)) = trimRight (trimLeft s) :=
      dropWhile_eq_self_of_head? _ hhead
    rw [hL, trimRight, trimRight, List.reverse_reverse,
      List.dropWhile_idempotent]

/-! ## Review aggregation (src/scripts/lib/vibeScorer.ts, `aggregateReviews`) -/

/-- A review entry of `GooglePlaceDetails` from config.ts; `text` models the
optional chain `review.text?.text`. -/
structure PlaceReview where
  text : Option JSStr
  rating : Option ℚ
  relativePublishTimeDescription : Option JSStr
  deriving DecidableEq, Repr

/-- `GooglePlaceDetails` from config.ts: a place with an optional review list. -/
structure GooglePlaceDetails extends GooglePlace where
  reviews : Option (List PlaceReview)
  deriving DecidableEq, Repr

/-- The snippet a review contributes, if any: the code pushes `text.trim()`
when `text && text.trim()` is truthy (both the raw text and its trim are
non-empty strings). -/
def snippetOf (r : PlaceReview) : Option JSStr :=
  match r.text with
  | none => none
  | some t => if !t.isEmpty && !(jsTrim t).isEmpty then some (jsTrim t) else none

/-- The `reviewTexts` array collected by the double loop of
`aggregateReviews`, in input order.  A missing `reviews` array is skipped
(`if (!place.reviews) continue`). -/
def collectSnippets (pds : List GooglePlaceDetails) : List JSStr :=
  (pds.map (fun p => (p.reviews.getD []).filterMap snippetOf)).flatten

/-- `MAX_CHARS` from `aggregateReviews`. -/
def MAX_CHARS : Nat := 8000

/-- The blank-line separator `'\n\n'` appended after each included snippet. -/
def nl2 : JSStr := ['\n', '\n']

/-- The accumulation loop of `aggregateReviews`: append `text + '\n\n'` while
`aggregated.length + text.length + 2 > MAX_CHARS` fails, else break. -/
def aggLoop : List JSStr → JSStr → JSStr
  | [], agg => agg
  | t :: ts, agg =>
      if agg.length + t.length + 2 > MAX_CHARS then agg
      else aggLoop ts (agg ++ t ++ nl2)

/-- `aggregateReviews` from vibeScorer.ts: the final trim of the accumulated
text, paired with the total snippet count. -/
def aggregateReviews (pds : List GooglePlaceDetails) : JSStr × Nat :=
  (jsTrim (aggLoop (collectSnippets pds) []), (collectSnippets pds).length)

/-- How many leading snippets the loop includes, starting from accumulated
length `acc`. -/
def fitCount (acc : Nat) : List JSStr → Nat
  | [] => 0
  | t :: ts =>
      if acc + t.length + 2 > MAX_CHARS then 0
      else fitCount (acc + t.length + 2) ts + 1

/-- The raw (untrimmed) concatenation `t₁ ++ '\n\n' ++ t₂ ++ '\n\n' ++ ⋯`. -/
def joinNl2 (l : List JSStr) : JSStr := (l.map (· ++ nl2)).flatten

/-- Whole snippets separated by one blank line (no trailing separator). -/
def interNl2 : List JSStr → JSStr
  | [] => []
  | [s] => s
  | s :: t :: l => s ++ nl2 ++ interNl2 (t :: l)

lemma aggLoop_eq_joinNl2 (ts : List JSStr) :
    ∀ agg : JSStr, aggLoop ts agg = agg ++ joinNl2 (ts.take (fitCount agg.length ts)) := by
  induction ts with
  | nil => intro agg; simp [aggLoop, joinNl2]
  | cons t ts ih =>
      intro agg
      by_cases h : agg.length + t.length + 2 > MAX_CHARS
      · simp [aggLoop, fitCount, h, joinNl2]
      · have hlen : (agg ++ t ++ nl2).length = agg.length + t.length + 2 := by
          simp [nl2]; omega
        rw [aggLoop, if_neg h, ih (agg ++ t ++ nl2), fitCount, if_neg h]
        simp only [List.take_succ_cons, joinNl2, List.map_cons, List.flatten_cons, hlen]
        simp [List.append_assoc]

lemma aggLoop_length_le (ts : List JSStr) :
    ∀ agg : JSStr, agg.length ≤ MAX_CHARS → (aggLoop ts agg).length ≤ MAX_CHARS := by
  induction ts with
  | nil => intro agg h; simpa [aggLoop] using h
  | cons t ts ih =>
      intro agg h
      by_cases hgt : agg.length + t.length + 2 > MAX_CHARS
      · simpa [aggLoop, hgt] using h
      · rw [aggLoop, if_neg hgt]
        refine ih _ ?_
        simp only [List.length_append, nl2, List.length_cons, List.length_nil]
        omega

lemma fitCount_le_length (ts : List JSStr) :
    ∀ acc : Nat, fitCount acc ts ≤ ts.length := by
  induction ts with
  | nil => intro acc; simp [fitCount]
  | cons t ts ih =>
      intro acc
      by_cases h : acc + t.length + 2 > MAX_CHARS
      · simp [fitCount, h]
      · simpa [fitCount, h, Nat.succ_le_succ_iff] using ih (acc + t.length + 2)

lemma fitCount_stop (ts : List JSStr) :
    ∀ acc : Nat, ∀ h : fitCount acc ts < ts.length,
      acc + (joinNl2 (ts.take (fitCount acc ts))).length
        + (ts.get ⟨fitCount acc ts, h⟩).length + 2 > MAX_CHARS := by
  induction ts with
  | nil => intro acc h; simp at h
  | cons t ts ih =>
      intro acc h
      by_cases hgt : acc + t.length + 2 > MAX_CHARS
      · simp [fitCount, hgt, joinNl2]
      · have h' : fitCount (acc + t.length + 2) ts < ts.length := by
          simp only [fitCount, if_neg hgt, List.length_cons] at h
          omega
        have := ih (acc + t.length + 2) h'
        simp only [fitCount, if_neg hgt, List.take_succ_cons, joinNl2,
          List.map_cons, List.flatten_cons, List.length_append, List.get_cons_succ]
        simp only [joinNl2] at this
        simp only [nl2, List.length_cons, List.length_nil] at this ⊢
        omega

/-- Dropping leading whitespace of an append whose left part survives. -/
lemma dropWhile_append_of_ne (a b : JSStr)
    (h : a.dropWhile isJSWhitespace ≠ []) :
    (a ++ b).dropWhile isJSWhitespace = a.dropWhile isJSWhitespace ++ b := by
  induction a with
  | nil => simp at h
  | cons c cs ih =>
      by_cases hc : isJSWhitespace c
      · have h' : cs.dropWhile isJSWhitespace ≠ [] := by
          simpa [List.dropWhile_cons, hc] using h
        simpa [List.dropWhile_cons, hc] using ih h'
      · simp [List.dropWhile_cons, hc]

lemma trimRight_append_of_ne (a b : JSStr) (h : trimRight b ≠ []) :
    trimRight (a ++ b) = a ++ trimRight b := by
  have h' : b.reverse.dropWhile isJSWhitespace ≠ [] := by
    intro hx
    exact h (by simp [trimRight, hx])
  rw [trimRight, List.reverse_append, dropWhile_append_of_ne _ _ h',
    List.reverse_append, List.reverse_reverse, trimRight]

/-- A fully-trimmed non-empty snippet survives a right trim after the
trailing separator is appended. -/
lemma trimRight_clean_append_nl2 (s : JSStr) (_hs : s ≠ []) (ht : jsTrim s = s) :
    trimRight (s ++ nl2) = s := by
  have hR : trimRight s = s := (trim_eq_self s ht).2
  have hrev : s.reverse.dropWhile isJSWhitespace = s.reverse := by
    have := congrArg List.reverse hR
    simpa [trimRight, List.reverse_reverse] using this
  have h2 : (s ++ nl2).reverse = '\n' :: '\n' :: s.reverse := by simp [nl2]
  rw [trimRight, h2, List.dropWhile_cons, if_pos (by decide : isJSWhitespace '\n' = true),
    List.dropWhile_cons, if_pos (by decide : isJSWhitespace '\n' = true), hrev,
    List.reverse_reverse]

lemma interNl2_ne_nil (s : JSStr) (l : List JSStr) (hs : s ≠ []) :
    interNl2 (s :: l) ≠ [] := by
  cases l with
  | nil => simpa [interNl2] using hs
  | cons t l =>
      simp only [interNl2]
      intro hx
      rcases List.append_eq_nil.1 hx with ⟨hx1, -⟩
      rcases List.append_eq_nil.1 hx1 with ⟨hs1, -⟩
      exact hs hs1

lemma trimRight_joinNl2 (l : List JSStr)
    (h : ∀ s ∈ l, s ≠ [] ∧ jsTrim s = s) :
    trimRight (joinNl2 l) = interNl2 l := by
  induction l with
  | nil => rfl
  | cons s l ih =>
      rcases h s (List.mem_cons_self s l) with ⟨hs, hts⟩
      cases l with
      | nil =>
          simp only [joinNl2, List.map_cons, List.map_nil, List.flatten_cons,
            List.flatten_nil, List.append_nil]
          rw [trimRight_clean_append_nl2 s hs hts]
          rfl
      | cons t l' =>
          have h' : ∀ x ∈ t :: l', x ≠ [] ∧ jsTrim x = x := fun x hx =>
            h x (List.mem_cons_of_mem s hx)
          have hne : trimRight (joinNl2 (t :: l')) ≠ [] := by
            rw [ih h']
            exact interNl2_ne_nil t l' (h' t (List.mem_cons_self t l')).1
          have hj : joinNl2 (s :: t :: l') = (s ++ nl2) ++ joinNl2 (t :: l') := by
            simp [joinNl2]
          rw [hj, trimRight_append_of_ne _ _ hne, ih h']
          simp [interNl2]

lemma trimLeft_joinNl2 (l : List JSStr)
    (h : ∀ s ∈ l, s ≠ [] ∧ jsTrim s = s) :
    trimLeft (joinNl2 l) = joinNl2 l := by
  cases l with
  | nil => rfl
  | cons s l =>
      rcases h s (List.mem_cons_self s l) with ⟨hs, hts⟩
      have hL : trimLeft s = s := (trim_eq_self s hts).1
      cases s with
      | nil => exact absurd rfl hs
      | cons c cs =>
          have hc : isJSWhitespace c = false := by
            have := head?_trimLeft (c :: cs)
            rw [jsTrim] at hts
            rcases hx : trimLeft (c :: cs) with _ | ⟨d, ds⟩
            · rw [hx] at hL; exact absurd hL.symm (List.cons_ne_nil c cs)
            · have hd := this d (by rw [hx]; rfl)
              rw [hx] at hL
              have : d = c := by
                have := congrArg List.head? hL
                simpa using this
              rwa [this] at hd
          simp [joinNl2, trimLeft, List.dropWhile_cons, hc]

lemma collectSnippets_clean (pds : List GooglePlaceDetails) :
    ∀ s ∈ collectSnippets pds, s ≠ [] ∧ jsTrim s = s := by
  intro s hs
  simp only [collectSnippets, List.mem_flatten, List.mem_map] at hs
  rcases hs with ⟨l, ⟨p, -, rfl⟩, hsl⟩
  rcases List.mem_filterMap.1 hsl with ⟨r, -, hr⟩
  rcases hrt : r.text with _ | t
  · rw [snippetOf, hrt] at hr
    exact absurd hr (by simp)
  · rw [snippetOf, hrt] at hr
    simp only at hr
    by_cases hcond : (!t.isEmpty && !(jsTrim t).isEmpty) = true
    · rw [if_pos hcond] at hr
      cases hr
      constructor
      · intro hnil
        rw [hnil] at hcond
        simp at hcond
      · exact jsTrim_idem t
    · rw [if_neg hcond] at hr
      exact absurd hr (by simp)

/-- C4: for every list of place details, `aggregateReviews` returns a text of
length at most the `MAX_CHARS` budget that is the blank-line-separated
concatenation of the first `j` whole trimmed non-empty snippets in input
order (never cut mid-snippet), where the loop stops exactly at the first
snippet whose addition would exceed the budget; the returned count is the
total number of non-empty snippets, which may exceed `j`. -/
theorem aggregateReviews_spec :
    ∀ pds : List GooglePlaceDetails,
      (aggregateReviews pds).2 = (collectSnippets pds).length
      ∧ (aggregateReviews pds).1.length ≤ MAX_CHARS
      ∧ ∃ j, j ≤ (collectSnippets pds).length
          ∧ (aggregateReviews pds).1 = interNl2 ((collectSnippets pds).take j)
          ∧ ∀ hj : j < (collectSnippets pds).length,
              (joinNl2 ((collectSnippets pds).take j)).length
                + ((collectSnippets pds).get ⟨j, hj⟩).length + 2 > MAX_CHARS := by
  intro pds
  refine ⟨rfl, ?_, ?_⟩
  · exact le_trans (jsTrim_length_le _) (aggLoop_length_le _ [] (by simp [MAX_CHARS]))
  · refine ⟨fitCount 0 (collectSnippets pds), fitCount_le_length _ 0, ?_, ?_⟩
    · have h0 := aggLoop_eq_joinNl2 (collectSnippets pds) []
      simp only [List.length_nil, List.nil_append] at h0
      have hclean : ∀ s ∈ (collectSnippets pds).take (fitCount 0 (collectSnippets pds)),
          s ≠ [] ∧ jsTrim s = s := fun s hs =>
        collectSnippets_clean pds s (List.take_subset _ _ hs)
      show jsTrim (aggLoop (collectSnippets pds) []) = _
      rw [h0, jsTrim, trimLeft_joinNl2 _ hclean, trimRight_joinNl2 _ hclean]
    · intro hj
      have := fitCount_stop (collectSnippets pds) 0 hj
      omega

/-! ## Errors and the retryability predicate (src/scripts/lib/rateLimiter.ts) -/

/-- A JavaScript `Error` as the retry machinery sees it: a message and an
optional numeric `status` property (set by `fetchWithError`). -/
structure JSError where
  message : JSStr
  status : Option ℚ
  deriving DecidableEq, Repr

/-- Does `hay` start with `needle`? -/
def startsWithSeq : JSStr → JSStr → Bool
  | [], _ => true
  | _ :: _, [] => false
  | a :: as, b :: bs => a = b && startsWithSeq as bs

/-- `String.prototype.includes`: substring containment. -/
def containsSeq (hay needle : JSStr) : Bool :=
  match hay with
  | [] => needle.isEmpty
  | _ :: rest => startsWithSeq needle hay || containsSeq rest needle

/-- The character class `[:\s]` of the status regexp. -/
def isStatusSep (c : Char) : Bool := c = ':' || isJSWhitespace c

/-- ASCII decimal digit. -/
def isDigitChar (c : Char) : Bool := '0' ≤ c && c ≤ '9'

/-- Strip a lowercase pattern from the input, comparing case-insensitively. -/
def stripCaseInsensitive : JSStr → JSStr → Option JSStr
  | [], s => some s
  | _ :: _, [] => none
  | c :: cs, d :: ds => if d.toLower = c then stripCaseInsensitive cs ds else none

/-- `parseInt` on a run of decimal digits. -/
def digitsToNat (ds : JSStr) : Nat :=
  ds.foldl (fun acc c => 10 * acc + (c.toNat - '0'.toNat)) 0

/-- Match the regexp `status[:\s]+(\d{3})` (case-insensitive) at the start of
`s`: the literal word, then one or more separator-class characters (greedy —
no backtracking is possible since no separator is a digit), then three
digits, captured. -/
def matchStatusAt (s : JSStr) : Option Nat :=
  match stripCaseInsensitive "status".toList s with
  | none => none
  | some rest =>
      if (rest.takeWhile isStatusSep).isEmpty then none
      else
        match rest.dropWhile isStatusSep with
        | d1 :: d2 :: d3 :: _ =>
            if isDigitChar d1 && isDigitChar d2 && isDigitChar d3 then
              some (digitsToNat [d1, d2, d3])
            else none
        | _ => none

/-- `message.match(/status[:\s]+(\d{3})/i)`: the leftmost match of the status
regexp, scanning start positions left to right. -/
def statusMatch : JSStr → Option Nat
  | [] => none
  | c :: rest =>
      match matchStatusAt (c :: rest) with
      | some n => some n
      | none => statusMatch rest

/-- `isRetryableError` from rateLimiter.ts: a timeout-looking message is
retryable; otherwise a 3-digit status parsed from the message, or failing
that the numeric `status` property, must be in the retryable code list. -/
def isRetryableError (e : JSError) (retryableCodes : List ℚ) : Bool :=
  if containsSeq e.message "timeout".toList
      || containsSeq e.message "ETIMEDOUT".toList then
    true
  else
    match statusMatch e.message with
    | some n => retryableCodes.contains (n : ℚ)
    | none =>
        match e.status with
        | some s => retryableCodes.contains s
        | none => false

/-! ## Retry executor (src/scripts/lib/rateLimiter.ts, `withRetry`) -/

/-- The options record of `withRetry` (delays in milliseconds, as naturals). -/
structure RetryOptions where
  maxRetries : Nat
  initialDelayMs : Nat
  maxDelayMs : Nat
  retryableStatusCodes : List ℚ

/-- `RETRY_CONFIG` from config.ts. -/
def RETRY_CONFIG : RetryOptions :=
  { maxRetries := 3, initialDelayMs := 1000, maxDelayMs := 10000,
    retryableStatusCodes := [429, 500, 503] }

/-- The `for (attempt = 0; attempt <= maxRetries; ...)` loop of `withRetry`.
The operation is an oracle indexed by the attempt number; the result carries
the outcome, the number of invocations made, and the list of backoff delays
slept.  `remaining` is `maxRetries - attempt`; at `remaining = 0` the loop
condition `!isRetryable || attempt === maxRetries` throws on any failure. -/
def withRetryGo {α : Type} (fn : Nat → Except JSError α) (opts : RetryOptions)
    (attempt : Nat) : Nat → Except JSError α × Nat × List Nat
  | 0 =>
      match fn attempt with
      | .ok v => (.ok v, 1, [])
      | .error e => (.error e, 1, [])
  | r + 1 =>
      match fn attempt with
      | .ok v => (.ok v, 1, [])
      | .error e =>
          if isRetryableError e opts.retryableStatusCodes then
            let d := min (opts.initialDelayMs * 2 ^ attempt) opts.maxDelayMs
            let rest := withRetryGo fn opts (attempt + 1) r
            (rest.1, rest.2.1 + 1, d :: rest.2.2)
          else (.error e, 1, [])

/-- `withRetry` from rateLimiter.ts. -/
def withRetry {α : Type} (fn : Nat → Except JSError α) (opts : RetryOptions) :
    Except JSError α × Nat × List Nat :=
  withRetryGo fn opts 0 opts.maxRetries

lemma withRetryGo_all_retryable {α : Type} (fn : Nat → Except JSError α)
    (opts : RetryOptions) (err : Nat → JSError) :
    ∀ r attempt,
      (∀ k, attempt ≤ k → k ≤ attempt + r →
          fn k = .error (err k)
          ∧ isRetryableError (err k) opts.retryableStatusCodes = true) →
      withRetryGo fn opts attempt r =
        (.error (err (attempt + r)), r + 1,
          (List.range' attempt r).map
            (fun k => min (opts.initialDelayMs * 2 ^ k) opts.maxDelayMs)) := by
  intro r
  induction r with
  | zero =>
      intro attempt h
      rcases h attempt le_rfl (by omega) with ⟨hfn, -⟩
      simp [withRetryGo, hfn]
  | succ r ih =>
      intro attempt h
      rcases h attempt le_rfl (by omega) with ⟨hfn, hret⟩
      have h' : ∀ k, attempt + 1 ≤ k → k ≤ attempt + 1 + r →
          fn k = .error (err k)
          ∧ isRetryableError (err k) opts.retryableStatusCodes = true := by
        intro k hk1 hk2
        exact h k (by omega) (by omega)
      rw [withRetryGo, hfn]
      simp only [hret, if_true]
      rw [ih (attempt + 1) h']
      have harr : attempt + 1 + r = attempt + (r + 1) := by omega
      rw [harr, List.range'_succ]
      simp

/-- C2: for every operation and retry options — (a) if the first attempt
fails with a non-retryable error, the operation is invoked exactly once, no
delay is slept, and that error propagates; (b) if every attempt up to the
retry budget `N = maxRetries` fails retryably, the operation is invoked
exactly `N+1` times, the last error propagates, and the delay before the
`k`-th retry (`k = 1..N`) is `min(initialDelay × 2^(k−1), maxDelay)`. -/
theorem withRetry_spec {α : Type} (fn : Nat → Except JSError α)
    (opts : RetryOptions) :
    (∀ e0, fn 0 = .error e0 →
        isRetryableError e0 opts.retryableStatusCodes = false →
        withRetry fn opts = (.error e0, 1, []))
    ∧ (∀ err : Nat → JSError,
        (∀ k, k ≤ opts.maxRetries →
            fn k = .error (err k)
            ∧ isRetryableError (err k) opts.retryableStatusCodes = true) →
        withRetry fn opts =
          (.error (err opts.maxRetries), opts.maxRetries + 1,
            (List.range opts.maxRetries).map
              (fun k => min (opts.initialDelayMs * 2 ^ k) opts.maxDelayMs))) := by
  constructor
  · intro e0 h0 hret
    cases hm : opts.maxRetries with
    | zero => rw [withRetry, hm, withRetryGo, h0]
    | succ r =>
        rw [withRetry, hm, withRetryGo, h0]
        simp [hret]
  · intro err h
    have := withRetryGo_all_retryable fn opts err opts.maxRetries 0
      (by intro k hk1 hk2; exact h k (by omega))
    rw [withRetry, this]
    rw [List.range_eq_range']
    norm_num

/-- A terminal (non-retryable) error: HTTP 400 with the status property set,
as `fetchWithError` produces. -/
def nonRetryErr : JSError := { message := "HTTP 400: Bad Request".toList, status := some 400 }

/-- A transient error: HTTP 429 with the status property set. -/
def retryErr : JSError := { message := "HTTP 429: Too Many Requests".toList, status := some 429 }

/-- Witness for C2 at concrete inputs: a constant HTTP-400 operation is
invoked once; a constant HTTP-429 operation under `RETRY_CONFIG` (3 retries)
is invoked 4 times with backoffs 1000, 2000, 4000 ms. -/
theorem withRetry_spec_witness :
    withRetry (fun _ => (.error nonRetryErr : Except JSError Nat)) RETRY_CONFIG
        = (.error nonRetryErr, 1, [])
    ∧ withRetry (fun _ => (.error retryErr : Except JSError Nat)) RETRY_CONFIG
        = (.error retryErr, 4, [1000, 2000, 4000]) := by
  constructor
  · exact (withRetry_spec (fun _ => .error nonRetryErr) RETRY_CONFIG).1 nonRetryErr rfl
      (by decide)
  · have h := (withRetry_spec (α := Nat) (fun _ => .error retryErr) RETRY_CONFIG).2
      (fun _ => retryErr)
      (fun k _ =>
        ⟨rfl, (by decide :
          isRetryableError retryErr RETRY_CONFIG.retryableStatusCodes = true)⟩)
    simpa using h

/-! ## A model of `JSON.parse` (ECMA-404 grammar, values as rationals) -/

/-- The opening brace character, written by code. -/
def lbraceChar : Char := '\x7b'

/-- The closing brace character, written by code. -/
def rbraceChar : Char := '\x7d'

/-- JSON values.  Numbers are rationals (the idealised JavaScript number). -/
inductive JsonVal where
  | jnull
  | jbool (b : Bool)
  | jnum (q : ℚ)
  | jstr (s : JSStr)
  | jarr (elems : List JsonVal)
  | jobj (fields : List (JSStr × JsonVal))

/-- JSON insignificant whitespace (space, tab, newline, carriage return). -/
def isJsonWs (c : Char) : Bool := c = ' ' || c = '\t' || c = '\n' || c = '\r'

/-- Skip JSON whitespace. -/
def skipJsonWs (s : JSStr) : JSStr := s.dropWhile isJsonWs

/-- Hexadecimal digit value. -/
def hexVal (c : Char) : Option Nat :=
  if '0' ≤ c ∧ c ≤ '9' then some (c.toNat - '0'.toNat)
  else if 'a' ≤ c ∧ c ≤ 'f' then some (c.toNat - 'a'.toNat + 10)
  else if 'A' ≤ c ∧ c ≤ 'F' then some (c.toNat - 'A'.toNat + 10)
  else none

/-- Parse the body of a JSON string (the opening quote already consumed),
returning the decoded content and the remainder after the closing quote.
Fuelled by the input length; raw control characters are invalid. -/
def parseJsonString : Nat → JSStr → Option (JSStr × JSStr)
  | 0, _ => none
  | _ + 1, [] => none
  | fuel + 1, c :: rest =>
      if c = '"' then some ([], rest)
      else if c = '\\' then
        match rest with
        | [] => none
        | e :: rest2 =>
            let esc : Option (Char × JSStr) :=
              if e = '"' then some ('"', rest2)
              else if e = '\\' then some ('\\', rest2)
              else if e = '/' then some ('/', rest2)
              else if e = 'b' then some ('\x08', rest2)
              else if e = 'f' then some ('\x0c', rest2)
              else if e = 'n' then some ('\n', rest2)
              else if e = 'r' then some ('\r', rest2)
              else if e = 't' then some ('\t', rest2)
              else if e = 'u' then
                match rest2 with
                | h1 :: h2 :: h3 :: h4 :: rest3 =>
                    match hexVal h1, hexVal h2, hexVal h3, hexVal h4 with
                    | some a, some b, some c2, some d =>
                        some (Char.ofNat (((a * 16 + b) * 16 + c2) * 16 + d), rest3)
                    | _, _, _, _ => none
                | _ => none
              else none
            match esc with
            | none => none
            | some (ch, r) =>
                match parseJsonString fuel r with
                | none => none
                | some (s, rest3) => some (ch :: s, rest3)
      else if c.toNat < 32 then none
      else
        match parseJsonString fuel rest with
        | none => none
        | some (s, rest3) => some (c :: s, rest3)

/-- Parse a JSON string literal starting at a `"` already consumed, with
self-sufficient fuel. -/
def parseJsonStringTop (s : JSStr) : Option (JSStr × JSStr) :=
  parseJsonString (s.length + 1) s

/-- The numeric value of a JSON number from its parts, kept cast-only when no
fraction or exponent is present. -/
def jsonNumVal (neg : Bool) (intDs fracDs : JSStr) (expPart : Option (Bool × Nat)) : ℚ :=
  let mant : ℚ :=
    if fracDs.isEmpty then (digitsToNat intDs : ℚ)
    else (digitsToNat intDs : ℚ) + (digitsToNat fracDs : ℚ) / (10 ^ fracDs.length : ℚ)
  let scaled : ℚ :=
    match expPart with
    | none => mant
    | some (true, e) => mant / 10 ^ e
    | some (false, e) => mant * 10 ^ e
  if neg then -scaled else scaled

/-- Parse the optional exponent part of a JSON number. -/
def parseJsonExp (s : JSStr) : Option (Option (Bool × Nat) × JSStr) :=
  match s with
  | e :: rest =>
      if e = 'e' ∨ e = 'E' then
        let signed : Bool × JSStr :=
          match rest with
          | '+' :: r => (false, r)
          | '-' :: r => (true, r)
          | _ => (false, rest)
        let eds := signed.2.takeWhile isDigitChar
        if eds.isEmpty then none
        else some (some (signed.1, digitsToNat eds), signed.2.dropWhile isDigitChar)
      else some (none, s)
  | [] => some (none, [])

/-- Parse a JSON number literal: `-? (0 | [1-9][0-9]*) (. [0-9]+)? ([eE][+-]?[0-9]+)?`. -/
def parseJsonNumber (s : JSStr) : Option (ℚ × JSStr) :=
  let signed : Bool × JSStr :=
    match s with
    | '-' :: r => (true, r)
    | _ => (false, s)
  let intDs := signed.2.takeWhile isDigitChar
  let s2 := signed.2.dropWhile isDigitChar
  if intDs.isEmpty then none
  else if 1 < intDs.length ∧ intDs.head? = some '0' then none
  else
    match s2 with
    | '.' :: s3 =>
        let fracDs := s3.takeWhile isDigitChar
        if fracDs.isEmpty then none
        else
          match parseJsonExp (s3.dropWhile isDigitChar) with
          | none => none
          | some (ep, s4) => some (jsonNumVal signed.1 intDs fracDs ep, s4)
    | _ =>
        match parseJsonExp s2 with
        | none => none
        | some (ep, s4) => some (jsonNumVal signed.1 intDs [] ep, s4)

mutual

/-- Parse one JSON value (leading whitespace allowed), fuelled. -/
def parseJsonValue : Nat → JSStr → Option (JsonVal × JSStr)
  | 0, _ => none
  | fuel + 1, s =>
      match skipJsonWs s with
      | [] => none
      | c :: rest =>
          if c = '"' then
            match parseJsonStringTop rest with
            | some (str, r) => some (.jstr str, r)
            | none => none
          else if c = lbraceChar then
            match skipJsonWs rest with
            | d :: r2 =>
                if d = rbraceChar then some (.jobj [], r2)
                else
                  match parseJsonMembers fuel rest with
                  | some (fields, r3) => some (.jobj fields, r3)
                  | none => none
            | [] => none
          else if c = '[' then
            match skipJsonWs rest with
            | d :: r2 =>
                if d = ']' then some (.jarr [], r2)
                else
                  match parseJsonElems fuel rest with
                  | some (elems, r3) => some (.jarr elems, r3)
                  | none => none
            | [] => none
          else if startsWithSeq "true".toList (c :: rest) then
            some (.jbool true, (c :: rest).drop 4)
          else if startsWithSeq "false".toList (c :: rest) then
            some (.jbool false, (c :: rest).drop 5)
          else if startsWithSeq "null".toList (c :: rest) then
            some (.jnull, (c :: rest).drop 4)
          else
            match parseJsonNumber (c :: rest) with
            | some (q, r) => some (.jnum q, r)
            | none => none

/-- Parse the members of a JSON object after the opening brace (at least one
member), through the closing brace. -/
def parseJsonMembers : Nat → JSStr → Option (List (JSStr × JsonVal) × JSStr)
  | 0, _ => none
  | fuel + 1, s =>
      match skipJsonWs s with
      | '"' :: rest =>
          match parseJsonStringTop rest with
          | none => none
          | some (key, r1) =>
              match skipJsonWs r1 with
              | ':' :: r2 =>
                  match parseJsonValue fuel r2 with
                  | none => none
                  | some (v, r3) =>
                      match skipJsonWs r3 with
                      | ',' :: r4 =>
                          match parseJsonMembers fuel r4 with
                          | none => none
                          | some (fields, r5) => some ((key, v) :: fields, r5)
                      | d :: r4 =>
                          if d = rbraceChar then some ([(key, v)], r4) else none
                      | [] => none
              | _ => none
      | _ => none

/-- Parse the elements of a JSON array after the opening bracket (at least
one element), through the closing bracket. -/
def parseJsonElems : Nat → JSStr → Option (List JsonVal × JSStr)
  | 0, _ => none
  | fuel + 1, s =>
      match parseJsonValue fuel s with
      | none => none
      | some (v, r1) =>
          match skipJsonWs r1 with
          | ',' :: r2 =>
              match parseJsonElems fuel r2 with
              | none => none
              | some (elems, r3) => some (v :: elems, r3)
          | d :: r2 => if d = ']' then some ([v], r2) else none
          | [] => none

end

/-- `JSON.parse`: parse one value and require only whitespace to remain.
The fuel `length + 1` suffices for any input, since every recursion layer
consumes at least one character. -/
def jsonParse (s : JSStr) : Option JsonVal :=
  match parseJsonValue (s.length + 1) s with
  | some (v, rest) => if (skipJsonWs rest).isEmpty then some v else none
  | none => none

/-! ## Vibe-score parsing (src/scripts/lib/vibeScorer.ts, `parseVibeScores`) -/

/-- The index of the last occurrence of `c`, if any. -/
def lastIdxOf (c : Char) : JSStr → Option Nat
  | [] => none
  | x :: xs =>
      match lastIdxOf c xs with
      | some i => some (i + 1)
      | none => if x = c then some 0 else none

/-- One start-position attempt of the regexp `\{[\s\S]*\}`: the greedy body
backtracks to the **last** closing brace of the whole remainder. -/
def greedyBraceMatchAt (s : JSStr) : Option JSStr :=
  match s with
  | [] => none
  | c :: rest =>
      if c = lbraceChar then
        match lastIdxOf rbraceChar rest with
        | some i => some (c :: rest.take (i + 1))
        | none => none
      else none

/-- `text.match(/\{[\s\S]*\}/)`: leftmost start position, then greedy body —
so the match runs from the first opening brace to the last closing brace of
the text, **not** to the matching balanced brace. -/
def jsRegexBraceMatch : JSStr → Option JSStr
  | [] => none
  | c :: rest =>
      match greedyBraceMatchAt (c :: rest) with
      | some m => some m
      | none => jsRegexBraceMatch rest

/-- `VIBE_DIMENSIONS` from config.ts; the Lean constructor for the `local`
dimension is `localDim` because `local` is a Lean keyword — its JSON key is
still the string `local`. -/
inductive VibeDim where
  | lively | social | upscale | casual | trendy | localDim | photogenic
  deriving DecidableEq, Repr, Fintype

/-- The JSON field name of each dimension. -/
def VibeDim.key : VibeDim → JSStr
  | .lively => "lively".toList
  | .social => "social".toList
  | .upscale => "upscale".toList
  | .casual => "casual".toList
  | .trendy => "trendy".toList
  | .localDim => "local".toList
  | .photogenic => "photogenic".toList

/-- The `VibeScores` record from config.ts: each dimension is a number or
null. -/
abbrev VibeScores := VibeDim → Option ℚ

/-- `emptyVibeScores` from vibeScorer.ts: all dimensions null. -/
def emptyVibeScores : VibeScores := fun _ => none

/-- Property lookup on the parsed JSON: on an object, the **last** binding of
the key wins (`JSON.parse` duplicate-key semantics); on any other value the
lookup is undefined. -/
def lookupLast (fields : List (JSStr × JsonVal)) (key : JSStr) : Option JsonVal :=
  match fields with
  | [] => none
  | (k, v) :: rest =>
      match lookupLast rest key with
      | some v2 => some v2
      | none => if k = key then some v else none

/-- `parsed[dim]`. -/
def getField : JsonVal → JSStr → Option JsonVal
  | .jobj fields, key => lookupLast fields key
  | _, _ => none

/-- `Math.round`: round half towards positive infinity. -/
def jsRound (q : ℚ) : ℤ := ⌊q + 1 / 2⌋

/-- `parseVibeScores` from vibeScorer.ts: extract the regexp match of
`/\{[\s\S]*\}/` from the raw output (all-null when absent), `JSON.parse` it
(all-null when it throws — the enclosing try/catch), then for each dimension
accept only a numeric value within `[0, 1]`, rounded to two decimals. -/
def parseVibeScores (text : JSStr) : VibeScores :=
  match jsRegexBraceMatch text with
  | none => emptyVibeScores
  | some span =>
      match jsonParse span with
      | none => emptyVibeScores
      | some v => fun dim =>
          match getField v dim.key with
          | some (.jnum q) =>
              if 0 ≤ q ∧ q ≤ 1 then some ((jsRound (q * 100) : ℚ) / 100) else none
          | _ => none

/-- Depth-counting scan collecting the first balanced brace span. -/
def balGo : JSStr → Nat → JSStr → Option JSStr
  | [], _, _ => none
  | c :: rest, depth, acc =>
      if c = lbraceChar then balGo rest (depth + 1) (c :: acc)
      else if c = rbraceChar then
        if depth = 1 then some (c :: acc).reverse
        else balGo rest (depth - 1) (c :: acc)
      else balGo rest depth (c :: acc)

/-- Follows the spec's words, for comparison with the implementation: "locate
the first balanced JSON object substring in the raw output" — the span from
the first opening brace to its matching brace by depth counting. -/
def specFirstBalancedObject : JSStr → Option JSStr
  | [] => none
  | c :: rest =>
      if c = lbraceChar then balGo (c :: rest) 0 []
      else specFirstBalancedObject rest

/-- Follows the spec's words: parse dimensions from the first **balanced**
object substring (all-null when absent or unparseable). -/
def specParseVibeScores (text : JSStr) : VibeScores :=
  match specFirstBalancedObject text with
  | none => emptyVibeScores
  | some span =>
      match jsonParse span with
      | none => emptyVibeScores
      | some v => fun dim =>
          match getField v dim.key with
          | some (.jnum q) =>
              if 0 ≤ q ∧ q ≤ 1 then some ((jsRound (q * 100) : ℚ) / 100) else none
          | _ => none

/-- C6: `parseVibeScores` is total (never throws) and every dimension of its
result is either null or a number in `[0, 1]` with at most two decimal
places, non-null only when the parsed JSON object gave that dimension a
numeric value in `[0, 1]` (then equal to that value rounded to two
decimals); `emptyVibeScores` is all-null. -/
theorem parseVibeScores_invariant :
    ∀ (text : JSStr) (dim : VibeDim),
      emptyVibeScores dim = none
      ∧ (parseVibeScores text dim = none
        ∨ ∃ q span obj v,
            parseVibeScores text dim = some q
            ∧ jsRegexBraceMatch text = some span
            ∧ jsonParse span = some obj
            ∧ getField obj dim.key = some (.jnum v)
            ∧ 0 ≤ v ∧ v ≤ 1
            ∧ q = (jsRound (v * 100) : ℚ) / 100
            ∧ 0 ≤ q ∧ q ≤ 1
            ∧ ∃ z : ℤ, q * 100 = (z : ℚ)) := by
  intro text dim
  refine ⟨rfl, ?_⟩
  rcases hm : jsRegexBraceMatch text with _ | span
  · exact Or.inl (by simp [parseVibeScores, hm, emptyVibeScores])
  · rcases hp : jsonParse span with _ | obj
    · exact Or.inl (by simp [parseVibeScores, hm, hp, emptyVibeScores])
    · have hval : parseVibeScores text dim =
          match getField obj dim.key with
          | some (.jnum q) =>
              if 0 ≤ q ∧ q ≤ 1 then some ((jsRound (q * 100) : ℚ) / 100) else none
          | _ => none := by
        simp [parseVibeScores, hm, hp]
      rcases hf : getField obj dim.key with _ | v
      · exact Or.inl (by rw [hval, hf])
      · cases v with
        | jnum q =>
            by_cases hq : 0 ≤ q ∧ q ≤ 1
            · refine Or.inr ⟨(jsRound (q * 100) : ℚ) / 100, span, obj, q, ?_⟩
              refine ⟨by rw [hval, hf]; simp [hq], by simp [hm], by simp [hp],
                by simp [hf], hq.1, hq.2, rfl, ?_, ?_, ?_⟩
              · have h0 : (0 : ℤ) ≤ jsRound (q * 100) := by
                  rw [jsRound]
                  refine Int.le_floor.2 ?_
                  push_cast
                  nlinarith [hq.1]
                have hq0 : (0 : ℚ) ≤ (jsRound (q * 100) : ℚ) := by exact_mod_cast h0
                positivity
              · have h100 : jsRound (q * 100) ≤ 100 := by
                  rw [jsRound]
                  have h1 : (q * 100 + 1 / 2 : ℚ) < ((101 : ℤ) : ℚ) := by
                    push_cast
                    nlinarith [hq.2]
                  have hlt := Int.floor_lt.2 h1
                  omega
                rw [div_le_one (by norm_num : (0 : ℚ) < 100)]
                exact_mod_cast h100
              · exact ⟨jsRound (q * 100), by field_simp⟩
            · exact Or.inl (by rw [hval, hf]; simp [hq])
        | jnull => exact Or.inl (by rw [hval, hf])
        | jbool b => exact Or.inl (by rw [hval, hf])
        | jstr s => exact Or.inl (by rw [hval, hf])
        | jarr a => exact Or.inl (by rw [hval, hf])
        | jobj o => exact Or.inl (by rw [hval, hf])

lemma lastIdxOf_eq_none (c : Char) :
    ∀ l : JSStr, lastIdxOf c l = none → c ∉ l := by
  intro l
  induction l with
  | nil => intro _ h; simp at h
  | cons x xs ih =>
      intro h
      rw [lastIdxOf] at h
      rcases hx : lastIdxOf c xs with _ | j
      · rw [hx] at h
        by_cases hxc : x = c
        · rw [if_pos hxc] at h; cases h
        · intro hmem
          rcases List.mem_cons.1 hmem with h1 | h2
          · exact hxc h1.symm
          · exact ih hx h2
      · rw [hx] at h; cases h

lemma lastIdxOf_eq_some (c : Char) :
    ∀ (l : JSStr) (i : Nat), lastIdxOf c l = some i →
      ∃ a b, l = a ++ c :: b ∧ a.length = i ∧ c ∉ b := by
  intro l
  induction l with
  | nil => intro i h; simp [lastIdxOf] at h
  | cons x xs ih =>
      intro i h
      rw [lastIdxOf] at h
      rcases hx : lastIdxOf c xs with _ | j
      · rw [hx] at h
        by_cases hxc : x = c
        · rw [if_pos hxc] at h
          injection h with h
          subst h
          subst hxc
          exact ⟨[], xs, rfl, rfl, lastIdxOf_eq_none x xs hx⟩
        · rw [if_neg hxc] at h; cases h
      · rw [hx] at h
        injection h with h
        subst h
        rcases ih j hx with ⟨a, b, hab, hlen, hnb⟩
        exact ⟨x :: a, b, by rw [hab]; rfl, by simp [hlen], hnb⟩

lemma jsRegexBraceMatch_none_of_not_mem (s : JSStr) (h : rbraceChar ∉ s) :
    jsRegexBraceMatch s = none := by
  induction s with
  | nil => rfl
  | cons c rest ih =>
      have hrest : rbraceChar ∉ rest := fun hm => h (List.mem_cons_of_mem _ hm)
      rw [jsRegexBraceMatch]
      have hg : greedyBraceMatchAt (c :: rest) = none := by
        rw [greedyBraceMatchAt]
        by_cases hc : c = lbraceChar
        · rcases hx : lastIdxOf rbraceChar rest with _ | i
          · simp [hc, hx]
          · exfalso
            rcases lastIdxOf_eq_some rbraceChar rest i hx with ⟨a, b, hab, -, -⟩
            exact hrest (by
              rw [hab]
              exact List.mem_append_right a (List.mem_cons_self _ _))
        · simp [hc]
      rw [hg]
      exact ih hrest

lemma jsRegexBraceMatch_eq_some (s : JSStr) :
    ∀ span, jsRegexBraceMatch s = some span →
      ∃ pre mid post, s = pre ++ lbraceChar :: mid ++ rbraceChar :: post
        ∧ lbraceChar ∉ pre ∧ rbraceChar ∉ post
        ∧ span = lbraceChar :: mid ++ [rbraceChar] := by
  induction s with
  | nil => intro span h; simp [jsRegexBraceMatch] at h
  | cons c rest ih =>
      intro span h
      rw [jsRegexBraceMatch] at h
      rcases hg : greedyBraceMatchAt (c :: rest) with _ | m
      · rw [hg] at h
        simp only at h
        rcases ih span h with ⟨pre, mid, post, hs, hpre, hpost, hspan⟩
        have hc : c ≠ lbraceChar := by
          intro hc
          rw [greedyBraceMatchAt, if_pos hc] at hg
          rcases hx : lastIdxOf rbraceChar rest with _ | i
          · have hnone :=
              jsRegexBraceMatch_none_of_not_mem rest (lastIdxOf_eq_none _ rest hx)
            rw [hnone] at h; cases h
          · rw [hx] at hg; cases hg
        refine ⟨c :: pre, mid, post, by rw [hs]; rfl, ?_, hpost, hspan⟩
        intro hm
        rcases List.mem_cons.1 hm with h1 | h2
        · exact hc h1.symm
        · exact hpre h2
      · rw [hg] at h
        injection h with h
        subst h
        rw [greedyBraceMatchAt] at hg
        by_cases hc : c = lbraceChar
        · rw [if_pos hc] at hg
          rcases hx : lastIdxOf rbraceChar rest with _ | i
          · rw [hx] at hg; cases hg
          · rw [hx] at hg
            injection hg with hg
            rcases lastIdxOf_eq_some rbraceChar rest i hx with ⟨a, b, hab, hlen, hnb⟩
            refine ⟨[], a, b, by rw [hc, hab]; rfl, by simp, hnb, ?_⟩
            rw [← hg, hc, hab, ← hlen, List.take_append_eq_append_take]
            simp
        · rw [if_neg hc] at hg; cases hg

/-- C5 (amended): the score parser extracts the regexp match of
`/\{[\s\S]*\}/` — the span from the **first** opening brace through the
**last** closing brace of the raw output, not the first balanced object —
and parses dimensions from it; when no such span exists, or when the
extracted span is not valid JSON, it returns the all-null score set. -/
theorem parseVibeScores_greedy_spec (text : JSStr) :
    (jsRegexBraceMatch text = none → parseVibeScores text = emptyVibeScores)
    ∧ (∀ span, jsRegexBraceMatch text = some span → jsonParse span = none →
        parseVibeScores text = emptyVibeScores)
    ∧ (∀ span, jsRegexBraceMatch text = some span →
        ∃ pre mid post,
          text = pre ++ lbraceChar :: mid ++ rbraceChar :: post
          ∧ lbraceChar ∉ pre ∧ rbraceChar ∉ post
          ∧ span = lbraceChar :: mid ++ [rbraceChar]) := by
  refine ⟨?_, ?_, fun span h => jsRegexBraceMatch_eq_some text span h⟩
  · intro h
    funext dim
    simp [parseVibeScores, h, emptyVibeScores]
  · intro span h hj
    funext dim
    simp [parseVibeScores, h, hj, emptyVibeScores]

/-- Witness for the amended C5 at concrete inputs: an output with no brace
span, and one whose greedy span is not valid JSON, both yield the all-null
set; a braced text decomposes as first-brace-to-last-brace. -/
theorem parseVibeScores_greedy_spec_witness :
    parseVibeScores "no object".toList = emptyVibeScores
    ∧ parseVibeScores "ab\x7bxy\x7dcd".toList = emptyVibeScores
    ∧ ∃ pre mid post,
        "a\x7bb\x7dc".toList = pre ++ lbraceChar :: mid ++ rbraceChar :: post
        ∧ lbraceChar ∉ pre ∧ rbraceChar ∉ post
        ∧ "\x7bb\x7d".toList = lbraceChar :: mid ++ [rbraceChar] := by
  refine ⟨?_, ?_, ?_⟩
  · exact (parseVibeScores_greedy_spec _).1 (by decide)
  · exact (parseVibeScores_greedy_spec _).2.1 "\x7bxy\x7d".toList (by decide) (by rfl)
  · exact (parseVibeScores_greedy_spec "a\x7bb\x7dc".toList).2.2
      "\x7bb\x7d".toList (by decide)

/-- The concrete classifier output refuting C5 as stated: a valid JSON
object followed by further text containing a closing brace. -/
def c5Input : JSStr := "Result: \x7b\"lively\": 1\x7d \x7d".toList

/-- C5 counterexample: on `c5Input` the first balanced object is
`{"lively": 1}` and parsing it (as the spec describes) would yield
`lively = 1`; the implementation instead matches greedily through the final
brace, `JSON.parse` throws on the span, and every dimension comes back null. -/
theorem parseVibeScores_counterexample :
    specFirstBalancedObject c5Input = some "\x7b\"lively\": 1\x7d".toList
    ∧ specParseVibeScores c5Input VibeDim.lively = some 1
    ∧ jsRegexBraceMatch c5Input = some "\x7b\"lively\": 1\x7d \x7d".toList
    ∧ parseVibeScores c5Input VibeDim.lively = none := by
  refine ⟨by decide, ?_, by decide, by rfl⟩
  have hb : specFirstBalancedObject c5Input
      = some "\x7b\"lively\": 1\x7d".toList := by decide
  have hj : jsonParse "\x7b\"lively\": 1\x7d".toList
      = some (.jobj [("lively".toList, .jnum 1)]) := by rfl
  rw [specParseVibeScores, hb]
  simp only [hj, getField, lookupLast, VibeDim.key]
  norm_num [jsRound]

/-! ## WKT centroid parsing (src/scripts/lib/googlePlaces.ts, `parsePointWKT`) -/

/-- The character class `[-\d.]` of the WKT regexp. -/
def isNumChar (c : Char) : Bool := c = '-' || c = '.' || isDigitChar c

/-- JavaScript `parseFloat` restricted to the decimal syntax: skip leading
whitespace, optional sign, then the longest prefix `digits [. digits]
[exponent]`; `none` models `NaN` (no digits at all).  The `Infinity` literal
cannot arise from the `[-\d.]+` captures this is applied to and is not
modelled. -/
def parseFloat (s : JSStr) : Option ℚ :=
  let t := trimLeft s
  let signed : Bool × JSStr :=
    match t with
    | '-' :: r => (true, r)
    | '+' :: r => (false, r)
    | _ => (false, t)
  let intDs := signed.2.takeWhile isDigitChar
  let afterInt := signed.2.dropWhile isDigitChar
  let fr : JSStr × JSStr :=
    match afterInt with
    | '.' :: r => (r.takeWhile isDigitChar, r.dropWhile isDigitChar)
    | _ => ([], afterInt)
  if intDs.isEmpty && fr.1.isEmpty then none
  else
    let ep : Option (Bool × Nat) :=
      match fr.2 with
      | e :: r2 =>
          if e = 'e' ∨ e = 'E' then
            let signedE : Bool × JSStr :=
              match r2 with
              | '+' :: r3 => (false, r3)
              | '-' :: r3 => (true, r3)
              | _ => (false, r2)
            let eds := signedE.2.takeWhile isDigitChar
            if eds.isEmpty then none else some (signedE.1, digitsToNat eds)
          else none
      | [] => none
    some (jsonNumVal signed.1 intDs fr.1 ep)

/-- A parsed centroid; each coordinate is a number or `NaN` (`none`), as
`parseFloat` yields. -/
structure Coords where
  lat : Option ℚ
  lng : Option ℚ
  deriving DecidableEq, Repr

/-- Match `POINT\s*\(\s*([-\d.]+)\s+([-\d.]+)\s*\)` (case-insensitive) at the
start of `s`, returning the two captures.  The quantifiers need no
backtracking: no `[-\d.]` character is whitespace and vice versa. -/
def matchPointAt (s : JSStr) : Option (JSStr × JSStr) :=
  match stripCaseInsensitive "point".toList s with
  | none => none
  | some r1 =>
      match r1.dropWhile isJSWhitespace with
      | '(' :: r3 =>
          let r4 := r3.dropWhile isJSWhitespace
          let c1 := r4.takeWhile isNumChar
          let r5 := r4.dropWhile isNumChar
          if c1.isEmpty then none
          else if (r5.takeWhile isJSWhitespace).isEmpty then none
          else
            let r6 := r5.dropWhile isJSWhitespace
            let c2 := r6.takeWhile isNumChar
            let r7 := r6.dropWhile isNumChar
            if c2.isEmpty then none
            else
              match r7.dropWhile isJSWhitespace with
              | ')' :: _ => some (c1, c2)
              | _ => none
      | _ => none

/-- Leftmost match of the WKT regexp. -/
def wktScan : JSStr → Option (JSStr × JSStr)
  | [] => none
  | c :: rest =>
      match matchPointAt (c :: rest) with
      | some r => some r
      | none => wktScan rest

/-- `parsePointWKT` from googlePlaces.ts: the first capture is the longitude,
the second the latitude. -/
def parsePointWKT (wkt : JSStr) : Option Coords :=
  match wktScan wkt with
  | some (c1, c2) => some { lng := parseFloat c1, lat := parseFloat c2 }
  | none => none

/-! ## Venue mapping (src/scripts/ingestCity.ts, `processCell` steps 2-5) -/

/-- `GridCell` from config.ts (`centroid` is the WKT text). -/
structure GridCell where
  id : JSStr
  city_id : JSStr
  centroid : JSStr
  deriving DecidableEq, Repr

/-- `CliOptions` from config.ts.  These are exactly the source's four fields:
there is no offset/skip option. -/
structure CliOptions where
  citySlug : JSStr
  force : Bool
  dryRun : Bool
  limit : Option Nat
  deriving DecidableEq, Repr

/-- `filterQualifiedVenues` from googlePlaces.ts:
`(v.userRatingCount || 0) >= minReviewCount`. -/
def filterQualifiedVenues (venues : List GooglePlace) (minReviewCount : ℚ) :
    List GooglePlace :=
  venues.filter (fun v => minReviewCount ≤ v.userRatingCount.getD 0)

/-- The priority list of `getPrimaryCategory`. -/
def priorityTypes : List JSStr :=
  [ "night_club".toList, "bar".toList, "restaurant".toList, "cafe".toList,
    "park".toList, "tourist_attraction".toList ]

/-- First priority type present in the venue's type list. -/
def findPriority : List JSStr → List JSStr → Option JSStr
  | [], _ => none
  | p :: ps, types =>
      if types.contains p then some p else findPriority ps types

/-- `getPrimaryCategory` from googlePlaces.ts. -/
def getPrimaryCategory (types : Option (List JSStr)) : Option JSStr :=
  match types with
  | none => none
  | some ts =>
      if ts.isEmpty then none
      else
        match findPriority priorityTypes ts with
        | some p => some p
        | none => ts.head?

/-- The venue-record coordinate.  The code renders a `POINT(lng lat)` WKT
string; the embedding keeps the numbers and their provenance instead of
modelling number-to-string formatting. -/
inductive VenueLocation where
  | fromPlace (lng lat : ℚ)
  | fromCell (lng lat : Option ℚ)
  deriving DecidableEq, Repr

/-- `VenueData` from config.ts. -/
structure VenueData where
  google_place_id : JSStr
  grid_cell_id : JSStr
  name : JSStr
  category : Option JSStr
  rating : Option ℚ
  review_count : Option ℚ
  location : VenueLocation
  deriving DecidableEq, Repr

/-- Step 4 of `processCell`: one ranked place mapped to its `VenueData`.
The `||` coercions make an absent (or zero, or empty) field fall back:
name to `'Unknown'`, rating and count to `null`, location to the cell
centroid.  `GooglePlace.location` is `(latitude, longitude)`. -/
def toVenueData (cell : GridCell) (coords : Coords) (place : GooglePlace) :
    VenueData :=
  { google_place_id := place.id
    grid_cell_id := cell.id
    name :=
      match place.displayName with
      | some n => if n.isEmpty then "Unknown".toList else n
      | none => "Unknown".toList
    category := getPrimaryCategory place.types
    rating :=
      match place.rating with
      | some r => if r = 0 then none else some r
      | none => none
    review_count :=
      match place.userRatingCount with
      | some n => if n = 0 then none else some n
      | none => none
    location :=
      match place.location with
      | some loc => .fromPlace loc.2 loc.1
      | none => .fromCell coords.lng coords.lat }

/-! ## Persistence (src/scripts/ingestCity.ts, `upsertVenues` / `upsertCellVibes`) -/

/-- `CellVibeData` from config.ts; the seven dimension columns are the
`scores` function. -/
structure CellVibeData where
  grid_cell_id : JSStr
  scores : VibeScores
  source_review_count : Nat
  model_name : Option JSStr
  computed_at : JSStr

/-- How the store responds to this cell's writes: `none` is success, `some e`
the rejection error. -/
structure StoreBehavior where
  venuesUpsertErr : Option JSError
  vibesDeleteErr : Option JSError
  vibesInsertErr : Option JSError

/-- `upsertVenues` from ingestCity.ts: a no-op under dry-run or an empty
list; a store rejection is only logged (`console.error`) — the function
returns normally either way.  The result records what was written. -/
def upsertVenues (st : StoreBehavior) (venues : List VenueData) (dryRun : Bool) :
    Except JSError (Option (List VenueData)) :=
  if dryRun || venues.isEmpty then .ok none
  else
    match st.venuesUpsertErr with
    | some _ => .ok none
    | none => .ok (some venues)

/-- `upsertCellVibes` from ingestCity.ts: a no-op under dry-run; the delete's
error is never inspected by the code; an insert rejection is logged and then
**thrown**. -/
def upsertCellVibes (st : StoreBehavior) (vibes : CellVibeData) (dryRun : Bool) :
    Except JSError (Option CellVibeData) :=
  if dryRun then .ok none
  else
    match st.vibesInsertErr with
    | some e => .error e
    | none => .ok (some vibes)

/-! ## The per-cell pipeline (src/scripts/ingestCity.ts, `processCell`) -/

/-- The external dependencies of one cell's pipeline: the (already deduped)
`searchAllTypes` outcome, the per-identifier details outcome
(`getPlaceDetails`, null on failure), the classifier's raw output for a
review text (after retry; an error is a thrown failure), the store's
behaviour, and the wall-clock timestamp. -/
structure CellEnv where
  searchResult : Except JSError (List GooglePlace)
  details : JSStr → Option GooglePlaceDetails
  llmOutput : JSStr → Except JSError JSStr
  store : StoreBehavior
  now : JSStr

/-- `VibeScorer.scoreVibes`: the retried classifier call followed by
`parseVibeScores` on its output text. -/
def scoreVibes (llmOutput : JSStr → Except JSError JSStr) (reviewText : JSStr) :
    Except JSError VibeScores :=
  (llmOutput reviewText).map parseVibeScores

/-- What a successful cell run did: the prepared venue rows, what the venue
upsert actually wrote, the identifiers sent to the details fetch, and the
vibe row written. -/
structure CellOutcome where
  venueData : List VenueData
  venuesWritten : Option (List VenueData)
  detailIds : List JSStr
  vibesWritten : Option CellVibeData

/-- The null-score row written for a cell with no qualified venues. -/
def emptyCellVibe (cellId : JSStr) (now : JSStr) : CellVibeData :=
  { grid_cell_id := cellId, scores := emptyVibeScores, source_review_count := 0,
    model_name := none, computed_at := now }

/-- `processCell` from ingestCity.ts: parse the centroid (throwing on
failure), search, qualify, rank, map **the ranked qualified venues** to venue
rows and upsert them, then either write null scores (no qualified venues) or
fetch details for the top venues, aggregate reviews, classify (skipped when
the aggregate is empty) and write the scores. -/
def processCell (env : CellEnv) (cell : GridCell) (options : CliOptions) :
    Except JSError CellOutcome :=
  match parsePointWKT cell.centroid with
  | none =>
      .error { message := "Failed to parse centroid for cell ".toList ++ cell.id,
               status := none }
  | some _coords =>
      match env.searchResult with
      | .error e => .error e
      | .ok allPlaces =>
          let qualifiedVenues := filterQualifiedVenues allPlaces MIN_REVIEW_COUNT
          let rankedVenues := rankVenues qualifiedVenues
          let topVenues := rankedVenues.take TOP_VENUES_PER_CELL
          let venueData := rankedVenues.map (toVenueData cell _coords)
          match upsertVenues env.store venueData options.dryRun with
          | .error e => .error e
          | .ok venuesWritten =>
              if topVenues.isEmpty then
                match upsertCellVibes env.store (emptyCellVibe cell.id env.now)
                    options.dryRun with
                | .error e => .error e
                | .ok w =>
                    .ok { venueData := venueData, venuesWritten := venuesWritten,
                          detailIds := [], vibesWritten := w }
              else
                let detailIds := topVenues.map (·.id)
                let placeDetails := topVenues.filterMap (fun v => env.details v.id)
                let agg := aggregateReviews placeDetails
                match
                  (if agg.1.isEmpty then (.ok emptyVibeScores : Except JSError VibeScores)
                   else scoreVibes env.llmOutput agg.1) with
                | .error e => .error e
                | .ok scores =>
                    match upsertCellVibes env.store
                        { grid_cell_id := cell.id, scores := scores,
                          source_review_count := agg.2,
                          model_name := if agg.1.isEmpty then none else some LLM_MODEL,
                          computed_at := env.now }
                        options.dryRun with
                    | .error e => .error e
                    | .ok w =>
                        .ok { venueData := venueData, venuesWritten := venuesWritten,
                              detailIds := detailIds, vibesWritten := w }

/-- The persisted venue identifiers of a cell run (empty when the cell
failed). -/
def cellVenueIds (env : CellEnv) (cell : GridCell) (options : CliOptions) :
    List JSStr :=
  match processCell env cell options with
  | .ok out => out.venueData.map (·.google_place_id)
  | .error _ => []

/-- The identifiers sent to the details fetch by a cell run. -/
def cellDetailIds (env : CellEnv) (cell : GridCell) (options : CliOptions) :
    List JSStr :=
  match processCell env cell options with
  | .ok out => out.detailIds
  | .error _ => []

/-- What the venue upsert wrote in a cell run. -/
def cellVenuesWritten (env : CellEnv) (cell : GridCell) (options : CliOptions) :
    Option (List VenueData) :=
  match processCell env cell options with
  | .ok out => out.venuesWritten
  | .error _ => none

/-! ## The orchestrator loop (src/scripts/ingestCity.ts, `main`) -/

/-- `FailedCell` from config.ts. -/
structure FailedCell where
  cellId : JSStr
  error : JSStr
  timestamp : JSStr
  deriving DecidableEq, Repr

/-- A run's observable result: the processed count, the failure ledger and
the identifiers attempted, in order. -/
structure RunResult where
  processed : Nat
  failedCells : List FailedCell
  attempted : List JSStr

/-- The body of `main`'s `for (const cell of cells)` loop: each cell's
outcome is tried; an error is caught, recorded with the cell identifier, the
error message and the current timestamp, and the loop continues.  `clock i`
is `new Date().toISOString()` at iteration `i`. -/
def runCellsAux (outcome : GridCell → Except JSError Unit) (clock : Nat → JSStr) :
    List GridCell → Nat → List FailedCell × List JSStr
  | [], _ => ([], [])
  | c :: cs, i =>
      let rest := runCellsAux outcome clock cs (i + 1)
      match outcome c with
      | .ok _ => (rest.1, c.id :: rest.2)
      | .error e =>
          ({ cellId := c.id, error := e.message, timestamp := clock i } :: rest.1,
            c.id :: rest.2)

/-- The orchestrator run over a cell list. -/
def runCells (outcome : GridCell → Except JSError Unit) (clock : Nat → JSStr)
    (cells : List GridCell) : RunResult :=
  { processed := cells.length
    failedCells := (runCellsAux outcome clock cells 0).1
    attempted := (runCellsAux outcome clock cells 0).2 }

/-- The `Succeeded:` count printed by the summary:
`processed - failedCells.length`. -/
def succeededCount (r : RunResult) : Nat := r.processed - r.failedCells.length

lemma runCellsAux_spec (outcome : GridCell → Except JSError Unit)
    (clock : Nat → JSStr) :
    ∀ (cells : List GridCell) (i : Nat),
      (runCellsAux outcome clock cells i).2 = cells.map (·.id)
      ∧ (runCellsAux outcome clock cells i).1
          = (cells.enumFrom i).filterMap (fun p =>
              match outcome p.2 with
              | .ok _ => none
              | .error e =>
                  some { cellId := p.2.id, error := e.message,
                         timestamp := clock p.1 }) := by
  intro cells
  induction cells with
  | nil => intro i; exact ⟨rfl, rfl⟩
  | cons c cs ih =>
      intro i
      rcases ih (i + 1) with ⟨ih2, ih1⟩
      rcases ho : outcome c with e | v
      · constructor
        · simp [runCellsAux, ho, ih2]
        · simp [runCellsAux, ho, ih1, List.enumFrom]
      · constructor
        · simp [runCellsAux, ho, ih2]
        · simp [runCellsAux, ho, ih1, List.enumFrom]

lemma runCellsAux_length_le (outcome : GridCell → Except JSError Unit)
    (clock : Nat → JSStr) :
    ∀ (cells : List GridCell) (i : Nat),
      (runCellsAux outcome clock cells i).1.length ≤ cells.length := by
  intro cells
  induction cells with
  | nil => intro i; simp [runCellsAux]
  | cons c cs ih =>
      intro i
      rcases ho : outcome c with e | v
      · simp only [runCellsAux, ho, List.length_cons]
        have := ih (i + 1)
        omega
      · simp only [runCellsAux, ho, List.length_cons]
        have := ih (i + 1)
        omega

/-- C1: in every run, every cell in the list is attempted, in order,
regardless of earlier failures; the failure ledger holds exactly one record —
cell identifier, error message, iteration timestamp — for each cell whose
processing threw, in order; the processed count is the cell count; and the
printed succeeded count is processed minus the ledger length (so succeeded +
failed = processed). -/
theorem orchestrator_loop_spec :
    ∀ (outcome : GridCell → Except JSError Unit) (clock : Nat → JSStr)
      (cells : List GridCell),
      (runCells outcome clock cells).attempted = cells.map (·.id)
      ∧ (runCells outcome clock cells).failedCells
          = cells.enum.filterMap (fun p =>
              match outcome p.2 with
              | .ok _ => none
              | .error e =>
                  some { cellId := p.2.id, error := e.message,
                         timestamp := clock p.1 })
      ∧ (runCells outcome clock cells).processed = cells.length
      ∧ succeededCount (runCells outcome clock cells)
            + (runCells outcome clock cells).failedCells.length
          = cells.length := by
  intro outcome clock cells
  rcases runCellsAux_spec outcome clock cells 0 with ⟨h2, h1⟩
  refine ⟨h2, ?_, rfl, ?_⟩
  · rw [runCells]
    rw [h1, List.enum]
  · have hle := runCellsAux_length_le outcome clock cells 0
    simp only [runCells, succeededCount]
    omega

lemma upsertVenues_ok (st : StoreBehavior) (venues : List VenueData) (dryRun : Bool) :
    ∃ w, upsertVenues st venues dryRun = .ok w := by
  unfold upsertVenues
  by_cases h : (dryRun || venues.isEmpty) = true
  · exact ⟨none, by rw [if_pos h]⟩
  · rcases hve : st.venuesUpsertErr with _ | e
    · exact ⟨some venues, by rw [if_neg h]⟩
    · exact ⟨none, by rw [if_neg h]⟩

lemma upsertVenues_err_none (st : StoreBehavior) (venues : List VenueData)
    (dryRun : Bool) (e : JSError) (h : st.venuesUpsertErr = some e) :
    upsertVenues st venues dryRun = .ok none := by
  unfold upsertVenues
  by_cases hc : (dryRun || venues.isEmpty) = true
  · rw [if_pos hc]
  · rw [if_neg hc, h]

lemma upsertCellVibes_ok (st : StoreBehavior) (vibes : CellVibeData) (dryRun : Bool)
    (h : st.vibesInsertErr = none) :
    ∃ w, upsertCellVibes st vibes dryRun = .ok w := by
  unfold upsertCellVibes
  by_cases hd : dryRun = true
  · exact ⟨none, by rw [if_pos hd]⟩
  · exact ⟨some vibes, by rw [if_neg hd, h]⟩

lemma upsertCellVibes_err (st : StoreBehavior) (vibes : CellVibeData) (e : JSError)
    (h : st.vibesInsertErr = some e) :
    upsertCellVibes st vibes false = .error e := by
  unfold upsertCellVibes
  rw [if_neg (by simp), h]

/-- Under a parsable centroid, a successful search, an accepting vibes insert
and a non-throwing classifier, `processCell` succeeds; its venue rows are the
ranked qualified venues, its venue upsert outcome is recorded, and its detail
fetches are none (empty cell) or the top-ranked identifiers. -/
lemma processCell_ok_shape (env : CellEnv) (cell : GridCell) (opts : CliOptions)
    (places : List GooglePlace) (coords : Coords)
    (hco : parsePointWKT cell.centroid = some coords)
    (hse : env.searchResult = .ok places)
    (hvi : env.store.vibesInsertErr = none)
    (hllm : ∀ t, (env.llmOutput t).isOk = true) :
    ∃ out, processCell env cell opts = .ok out
      ∧ out.venueData
          = (rankVenues (filterQualifiedVenues places MIN_REVIEW_COUNT)).map
              (toVenueData cell coords)
      ∧ upsertVenues env.store out.venueData opts.dryRun = .ok out.venuesWritten
      ∧ (out.detailIds = []
        ∨ out.detailIds
            = ((rankVenues (filterQualifiedVenues places MIN_REVIEW_COUNT)).take
                TOP_VENUES_PER_CELL).map (·.id)) := by
  obtain ⟨vw, hup⟩ := upsertVenues_ok env.store
    ((rankVenues (filterQualifiedVenues places MIN_REVIEW_COUNT)).map
      (toVenueData cell coords)) opts.dryRun
  by_cases ht : ((rankVenues (filterQualifiedVenues places MIN_REVIEW_COUNT)).take
      TOP_VENUES_PER_CELL).isEmpty = true
  · obtain ⟨w, hw⟩ :=
      upsertCellVibes_ok env.store (emptyCellVibe cell.id env.now) opts.dryRun hvi
    refine ⟨⟨(rankVenues (filterQualifiedVenues places MIN_REVIEW_COUNT)).map
        (toVenueData cell coords), vw, [], w⟩, ?_, rfl, hup, Or.inl rfl⟩
    simp only [processCell, hco, hse, hup]
    rw [if_pos ht, hw]
  · by_cases he : (aggregateReviews
        (((rankVenues (filterQualifiedVenues places MIN_REVIEW_COUNT)).take
          TOP_VENUES_PER_CELL).filterMap (fun v => env.details v.id))).1.isEmpty = true
    · obtain ⟨w, hw⟩ := upsertCellVibes_ok env.store
        { grid_cell_id := cell.id, scores := emptyVibeScores,
          source_review_count := (aggregateReviews
            (((rankVenues (filterQualifiedVenues places MIN_REVIEW_COUNT)).take
              TOP_VENUES_PER_CELL).filterMap (fun v => env.details v.id))).2,
          model_name := none, computed_at := env.now } opts.dryRun hvi
      refine ⟨⟨(rankVenues (filterQualifiedVenues places MIN_REVIEW_COUNT)).map
          (toVenueData cell coords), vw,
          ((rankVenues (filterQualifiedVenues places MIN_REVIEW_COUNT)).take
            TOP_VENUES_PER_CELL).map (·.id), w⟩, ?_, rfl, hup, Or.inr rfl⟩
      simp only [processCell, hco, hse, hup]
      rw [if_neg ht, if_pos he]
      simp [he, hw]
    · rcases hl : env.llmOutput (aggregateReviews
          (((rankVenues (filterQualifiedVenues places MIN_REVIEW_COUNT)).take
            TOP_VENUES_PER_CELL).filterMap (fun v => env.details v.id))).1 with e | o
      · exfalso
        have hx := hllm (aggregateReviews
          (((rankVenues (filterQualifiedVenues places MIN_REVIEW_COUNT)).take
            TOP_VENUES_PER_CELL).filterMap (fun v => env.details v.id))).1
        rw [hl] at hx
        simp [Except.isOk, Except.toBool] at hx
      · obtain ⟨w, hw⟩ := upsertCellVibes_ok env.store
          { grid_cell_id := cell.id, scores := parseVibeScores o,
            source_review_count := (aggregateReviews
              (((rankVenues (filterQualifiedVenues places MIN_REVIEW_COUNT)).take
                TOP_VENUES_PER_CELL).filterMap (fun v => env.details v.id))).2,
            model_name := some LLM_MODEL, computed_at := env.now } opts.dryRun hvi
        refine ⟨⟨(rankVenues (filterQualifiedVenues places MIN_REVIEW_COUNT)).map
            (toVenueData cell coords), vw,
            ((rankVenues (filterQualifiedVenues places MIN_REVIEW_COUNT)).take
              TOP_VENUES_PER_CELL).map (·.id), w⟩, ?_, rfl, hup, Or.inr rfl⟩
        simp only [processCell, hco, hse, hup]
        rw [if_neg ht, if_neg he]
        simp [scoreVibes, hl, Except.map, he, hw]

/-- C3 (amended): under a parsable centroid, a successful search, an
accepting store and a non-throwing classifier, a cell run succeeds and
persists exactly the **qualified** venues (rating count at or above the
threshold), in rank order — venues below the threshold are **not** recorded;
and only qualified venues are sent to the detail fetch. -/
theorem processCell_venue_persistence (env : CellEnv) (cell : GridCell)
    (opts : CliOptions) (places : List GooglePlace) (coords : Coords)
    (hco : parsePointWKT cell.centroid = some coords)
    (hse : env.searchResult = .ok places)
    (hvi : env.store.vibesInsertErr = none)
    (hllm : ∀ t, (env.llmOutput t).isOk = true) :
    (processCell env cell opts).isOk = true
    ∧ cellVenueIds env cell opts
        = (rankVenues (filterQualifiedVenues places MIN_REVIEW_COUNT)).map (·.id)
    ∧ (∀ v ∈ places, MIN_REVIEW_COUNT ≤ v.userRatingCount.getD 0 →
          v.id ∈ cellVenueIds env cell opts)
    ∧ (∀ pid ∈ cellVenueIds env cell opts,
          ∃ v, v ∈ places ∧ v.id = pid
            ∧ MIN_REVIEW_COUNT ≤ v.userRatingCount.getD 0)
    ∧ (∀ pid ∈ cellDetailIds env cell opts,
          pid ∈ (filterQualifiedVenues places MIN_REVIEW_COUNT).map (·.id)) := by
  obtain ⟨out, hpc, hvd, -, hdet⟩ :=
    processCell_ok_shape env cell opts places coords hco hse hvi hllm
  have hids : cellVenueIds env cell opts
      = (rankVenues (filterQualifiedVenues places MIN_REVIEW_COUNT)).map (·.id) := by
    simp only [cellVenueIds, hpc]
    rw [hvd, List.map_map]
    rfl
  have hperm :=
    rankVenues_perm (filterQualifiedVenues places MIN_REVIEW_COUNT)
  refine ⟨by rw [hpc]; rfl, hids, ?_, ?_, ?_⟩
  · intro v hv hq
    rw [hids]
    refine List.mem_map_of_mem _ ?_
    refine hperm.mem_iff.2 ?_
    rw [filterQualifiedVenues]
    exact List.mem_filter.2 ⟨hv, by simpa using hq⟩
  · intro pid hpid
    rw [hids] at hpid
    rcases List.mem_map.1 hpid with ⟨v, hvmem, hvid⟩
    have hvq : v ∈ filterQualifiedVenues places MIN_REVIEW_COUNT :=
      hperm.mem_iff.1 hvmem
    rw [filterQualifiedVenues] at hvq
    rcases List.mem_filter.1 hvq with ⟨hvp, hq⟩
    exact ⟨v, hvp, hvid, by simpa using hq⟩
  · intro pid hpid
    simp only [cellDetailIds, hpc] at hpid
    rcases hdet with hd | hd
    · rw [hd] at hpid
      simp at hpid
    · rw [hd] at hpid
      rcases List.mem_map.1 hpid with ⟨v, hvmem, hvid⟩
      have hvq : v ∈ filterQualifiedVenues places MIN_REVIEW_COUNT :=
        hperm.mem_iff.1 (List.take_subset _ _ hvmem)
      exact hvid ▸ List.mem_map_of_mem _ hvq

/-- The grid cell used by the concrete runs below. -/
def witCell : GridCell :=
  { id := "cell-1".toList, city_id := "sf".toList, centroid := "POINT(1 2)".toList }

/-- The coordinates `parsePointWKT` yields on `witCell`'s centroid. -/
def witCoords : Coords :=
  { lng := parseFloat "1".toList, lat := parseFloat "2".toList }

/-- A qualified venue: 50 ratings, above the threshold of 10. -/
def qualPlace : GooglePlace :=
  { id := "pl-q".toList, displayName := some "Busy Bar".toList, rating := some 4,
    userRatingCount := some 50, types := some ["bar".toList], location := none }

/-- A venue below the qualification threshold: 5 ratings. -/
def lowCountPlace : GooglePlace :=
  { id := "pl-low".toList, displayName := some "Quiet Cafe".toList,
    rating := some 4, userRatingCount := some 5, types := some ["cafe".toList],
    location := none }

/-- The run options used by the concrete runs below (no dry-run). -/
def witOpts : CliOptions :=
  { citySlug := "sf".toList, force := false, dryRun := false, limit := none }

/-- An all-accepting store. -/
def okStore : StoreBehavior :=
  { venuesUpsertErr := none, vibesDeleteErr := none, vibesInsertErr := none }

/-- A cell environment discovering exactly `qualPlace`. -/
def qualEnv : CellEnv :=
  { searchResult := .ok [qualPlace], details := fun _ => none,
    llmOutput := fun _ => .ok "\x7b\x7d".toList, store := okStore,
    now := "2026-01-01T00:00:00.000Z".toList }

/-- A cell environment discovering exactly `lowCountPlace`. -/
def lowEnv : CellEnv :=
  { searchResult := .ok [lowCountPlace], details := fun _ => none,
    llmOutput := fun _ => .ok "\x7b\x7d".toList, store := okStore,
    now := "2026-01-01T00:00:00.000Z".toList }

/-- Witness for the amended C3: the discovered qualified venue is persisted
and the run succeeds. -/
theorem processCell_venue_persistence_witness :
    (processCell qualEnv witCell witOpts).isOk = true
    ∧ qualPlace.id ∈ cellVenueIds qualEnv witCell witOpts := by
  obtain ⟨h1, -, h3, -, -⟩ := processCell_venue_persistence qualEnv witCell witOpts
    [qualPlace] witCoords rfl rfl rfl (fun t => rfl)
  exact ⟨h1, h3 qualPlace (List.mem_cons_self _ _) (by norm_num [qualPlace, MIN_REVIEW_COUNT])⟩

/-- C3 counterexample: a cell whose search discovers one venue with 5
ratings (below the threshold) succeeds but persists **no** venue record —
the discovered venue is not recorded, contradicting the claim that all
discovered venues are persisted. -/
theorem venue_persistence_counterexample :
    lowEnv.searchResult = .ok [lowCountPlace]
    ∧ processCell lowEnv witCell witOpts
        = .ok { venueData := [], venuesWritten := none, detailIds := [],
                vibesWritten := some (emptyCellVibe witCell.id lowEnv.now) }
    ∧ cellVenueIds lowEnv witCell witOpts = [] := by
  refine ⟨rfl, ?_, ?_⟩ <;> rfl

lemma processCell_insert_err (env : CellEnv) (cell : GridCell) (opts : CliOptions)
    (places : List GooglePlace) (coords : Coords) (e : JSError)
    (hco : parsePointWKT cell.centroid = some coords)
    (hse : env.searchResult = .ok places)
    (hdry : opts.dryRun = false)
    (hvi : env.store.vibesInsertErr = some e)
    (hllm : ∀ t, (env.llmOutput t).isOk = true) :
    processCell env cell opts = .error e := by
  obtain ⟨vw, hup⟩ := upsertVenues_ok env.store
    ((rankVenues (filterQualifiedVenues places MIN_REVIEW_COUNT)).map
      (toVenueData cell coords)) opts.dryRun
  have herr : ∀ vibes : CellVibeData,
      upsertCellVibes env.store vibes opts.dryRun = .error e := by
    intro vibes
    rw [hdry]
    exact upsertCellVibes_err env.store vibes e hvi
  by_cases ht : ((rankVenues (filterQualifiedVenues places MIN_REVIEW_COUNT)).take
      TOP_VENUES_PER_CELL).isEmpty = true
  · simp only [processCell, hco, hse, hup]
    rw [if_pos ht, herr]
  · by_cases he : (aggregateReviews
        (((rankVenues (filterQualifiedVenues places MIN_REVIEW_COUNT)).take
          TOP_VENUES_PER_CELL).filterMap (fun v => env.details v.id))).1.isEmpty = true
    · simp only [processCell, hco, hse, hup]
      rw [if_neg ht, if_pos he]
      simp [he, herr]
    · rcases hl : env.llmOutput (aggregateReviews
          (((rankVenues (filterQualifiedVenues places MIN_REVIEW_COUNT)).take
            TOP_VENUES_PER_CELL).filterMap (fun v => env.details v.id))).1 with e2 | o
      · exfalso
        have hx := hllm (aggregateReviews
          (((rankVenues (filterQualifiedVenues places MIN_REVIEW_COUNT)).take
            TOP_VENUES_PER_CELL).filterMap (fun v => env.details v.id))).1
        rw [hl] at hx
        simp [Except.isOk, Except.toBool] at hx
      · simp only [processCell, hco, hse, hup]
        rw [if_neg ht, if_neg he]
        simp [scoreVibes, hl, Except.map, he, herr]

/-- C10: store-rejection handling is asymmetric at the cell level — a venue
upsert rejection is swallowed (`upsertVenues` always returns normally), so
the cell still succeeds even though nothing was written; a cell-vibes insert
rejection is thrown (`upsertCellVibes` propagates it), so the cell fails and
lands in the failure ledger. -/
theorem upsert_asymmetry :
    (∀ (st : StoreBehavior) (venues : List VenueData) (dryRun : Bool),
        (upsertVenues st venues dryRun).isOk = true)
    ∧ (∀ (st : StoreBehavior) (vibes : CellVibeData) (e : JSError),
        st.vibesInsertErr = some e → upsertCellVibes st vibes false = .error e)
    ∧ (∀ (env : CellEnv) (cell : GridCell) (opts : CliOptions)
        (places : List GooglePlace) (coords : Coords) (eV : JSError),
        parsePointWKT cell.centroid = some coords →
        env.searchResult = .ok places →
        env.store.venuesUpsertErr = some eV →
        env.store.vibesInsertErr = none →
        (∀ t, (env.llmOutput t).isOk = true) →
        (processCell env cell opts).isOk = true
        ∧ cellVenuesWritten env cell opts = none)
    ∧ (∀ (env : CellEnv) (cell : GridCell) (opts : CliOptions)
        (places : List GooglePlace) (coords : Coords) (e : JSError)
        (clock : Nat → JSStr),
        parsePointWKT cell.centroid = some coords →
        env.searchResult = .ok places →
        opts.dryRun = false →
        env.store.vibesInsertErr = some e →
        (∀ t, (env.llmOutput t).isOk = true) →
        processCell env cell opts = .error e
        ∧ (runCells (fun c => (processCell env c opts).map (fun _ => ()))
              clock [cell]).failedCells
            = [{ cellId := cell.id, error := e.message, timestamp := clock 0 }]) := by
  refine ⟨?_, ?_, ?_, ?_⟩
  · intro st venues dryRun
    obtain ⟨w, hw⟩ := upsertVenues_ok st venues dryRun
    rw [hw]
    rfl
  · intro st vibes e h
    exact upsertCellVibes_err st vibes e h
  · intro env cell opts places coords eV hco hse hvu hvi hllm
    obtain ⟨out, hpc, hvd, hw, -⟩ :=
      processCell_ok_shape env cell opts places coords hco hse hvi hllm
    have hnone : upsertVenues env.store out.venueData opts.dryRun = .ok none :=
      upsertVenues_err_none env.store out.venueData opts.dryRun eV hvu
    rw [hnone] at hw
    injection hw with hw
    constructor
    · rw [hpc]; rfl
    · simp only [cellVenuesWritten, hpc]
      exact hw.symm
  · intro env cell opts places coords e clock hco hse hdry hvi hllm
    have hpc := processCell_insert_err env cell opts places coords e
      hco hse hdry hvi hllm
    refine ⟨hpc, ?_⟩
    simp [runCells, runCellsAux, hpc, Except.map]

/-- The venue-upsert rejection error of `venueErrStore`. -/
def upsertErr : JSError :=
  { message := "HTTP 500: venues upsert rejected".toList, status := some 500 }

/-- A store that rejects the venues upsert. -/
def venueErrStore : StoreBehavior :=
  { venuesUpsertErr := some upsertErr, vibesDeleteErr := none, vibesInsertErr := none }

/-- The insert-rejection error of `vibesErrStore`. -/
def insertErr : JSError :=
  { message := "HTTP 500: cell_vibes insert rejected".toList, status := some 500 }

/-- A store that rejects the cell-vibes insert. -/
def vibesErrStore : StoreBehavior :=
  { venuesUpsertErr := none, vibesDeleteErr := none, vibesInsertErr := some insertErr }

/-- `qualEnv` with the venue upsert rejected. -/
def venueErrEnv : CellEnv :=
  { qualEnv with store := venueErrStore }

/-- `qualEnv` with the cell-vibes insert rejected. -/
def vibesErrEnv : CellEnv :=
  { qualEnv with store := vibesErrStore }

/-- Witness for C10 at concrete inputs: with the venue upsert rejected the
cell run still succeeds and records nothing; with the vibes insert rejected
the run fails with that error and the one-cell run's ledger holds exactly its
record. -/
theorem upsert_asymmetry_witness :
    ((processCell venueErrEnv witCell witOpts).isOk = true
      ∧ cellVenuesWritten venueErrEnv witCell witOpts = none)
    ∧ (processCell vibesErrEnv witCell witOpts = .error insertErr
      ∧ (runCells (fun c => (processCell vibesErrEnv c witOpts).map (fun _ => ()))
            (fun _ => "t0".toList) [witCell]).failedCells
          = [{ cellId := witCell.id, error := insertErr.message,
               timestamp := "t0".toList }]) := by
  constructor
  · exact upsert_asymmetry.2.2.1 venueErrEnv witCell witOpts [qualPlace] witCoords
      upsertErr rfl rfl rfl rfl (fun t => rfl)
  · exact upsert_asymmetry.2.2.2 vibesErrEnv witCell witOpts [qualPlace] witCoords
      insertErr (fun _ => "t0".toList) rfl rfl rfl rfl (fun t => rfl)

/-! ## The details cache (src/scripts/lib/googlePlaces.ts, `getPlaceDetails`) -/

/-- The mutable state of a `GooglePlacesClient`: the in-run details cache
(`Map.set` modelled by cons, `Map.get` by first match) and how many external
detail fetches have been made. -/
structure PlacesClientState where
  detailsCache : List (JSStr × GooglePlaceDetails)
  fetchCount : Nat

/-- `detailsCache.get(placeId)`. -/
def cacheLookup (cache : List (JSStr × GooglePlaceDetails)) (placeId : JSStr) :
    Option GooglePlaceDetails :=
  match cache with
  | [] => none
  | (k, v) :: rest => if k = placeId then some v else cacheLookup rest placeId

/-- `getPlaceDetails` from googlePlaces.ts: answer from the cache when
present; otherwise perform one external fetch (the whole retried request,
indexed by the running fetch count): on success cache and return the record,
on failure return null **without caching anything**.  The boolean reports
whether an external fetch was performed. -/
def getPlaceDetails (fetch : Nat → JSStr → Except JSError GooglePlaceDetails)
    (st : PlacesClientState) (placeId : JSStr) :
    Option GooglePlaceDetails × PlacesClientState × Bool :=
  match cacheLookup st.detailsCache placeId with
  | some d => (some d, st, false)
  | none =>
      match fetch st.fetchCount placeId with
      | .ok d =>
          (some d,
            { detailsCache := (placeId, d) :: st.detailsCache,
              fetchCount := st.fetchCount + 1 }, true)
      | .error _ => (none, { st with fetchCount := st.fetchCount + 1 }, true)

/-- A sequence of `getPlaceDetails` calls; the log records, per call, the
identifier, whether an external fetch happened and whether a record came
back. -/
def runGetDetails (fetch : Nat → JSStr → Except JSError GooglePlaceDetails) :
    PlacesClientState → List JSStr → List (JSStr × Bool × Bool)
  | _, [] => []
  | st, pid :: ids =>
      (pid, (getPlaceDetails fetch st pid).2.2,
          (getPlaceDetails fetch st pid).1.isSome)
        :: runGetDetails fetch (getPlaceDetails fetch st pid).2.1 ids

/-- External fetches performed for one identifier in a run. -/
def fetchCountFor (log : List (JSStr × Bool × Bool)) (placeId : JSStr) : Nat :=
  (log.filter (fun entry => entry.1 = placeId && entry.2.1)).length

/-- Successful external fetches performed for one identifier in a run. -/
def successFetchCountFor (log : List (JSStr × Bool × Bool)) (placeId : JSStr) : Nat :=
  (log.filter (fun entry => entry.1 = placeId && entry.2.1 && entry.2.2)).length

lemma getPlaceDetails_cache_stable
    (fetch : Nat → JSStr → Except JSError GooglePlaceDetails)
    (st : PlacesClientState) (pid other : JSStr) :
    cacheLookup (getPlaceDetails fetch st other).2.1.detailsCache pid
      = cacheLookup st.detailsCache pid
    ∨ (other = pid
      ∧ ∃ d, cacheLookup (getPlaceDetails fetch st other).2.1.detailsCache pid
          = some d) := by
  unfold getPlaceDetails
  rcases hlk : cacheLookup st.detailsCache other with _ | d2
  · rcases hf : fetch st.fetchCount other with e | dd
    · exact Or.inl rfl
    · by_cases hne : other = pid
      · subst hne
        exact Or.inr ⟨rfl, dd, by simp [cacheLookup]⟩
      · exact Or.inl (by simp [cacheLookup, hne])
  · exact Or.inl rfl

lemma successFetchCountFor_cons (a : JSStr) (b c : Bool)
    (log : List (JSStr × Bool × Bool)) (pid : JSStr) :
    successFetchCountFor ((a, b, c) :: log) pid
      = (if a = pid ∧ b = true ∧ c = true then 1 else 0)
        + successFetchCountFor log pid := by
  simp only [successFetchCountFor, List.filter_cons]
  by_cases ha : a = pid
  · cases b <;> cases c <;> (simp [ha]; try omega)
  · simp [ha]

lemma successFetch_bound (fetch : Nat → JSStr → Except JSError GooglePlaceDetails) :
    ∀ (ids : List JSStr) (st : PlacesClientState) (pid : JSStr),
      successFetchCountFor (runGetDetails fetch st ids) pid
        ≤ (match cacheLookup st.detailsCache pid with
           | some _ => 0
           | none => 1) := by
  intro ids
  induction ids with
  | nil =>
      intro st pid
      rcases cacheLookup st.detailsCache pid with _ | d <;>
        simp [runGetDetails, successFetchCountFor]
  | cons id ids ih =>
      intro st pid
      have hstep : runGetDetails fetch st (id :: ids)
          = (id, (getPlaceDetails fetch st id).2.2,
              (getPlaceDetails fetch st id).1.isSome)
            :: runGetDetails fetch (getPlaceDetails fetch st id).2.1 ids := rfl
      rw [hstep, successFetchCountFor_cons]
      by_cases hid : id = pid
      · subst hid
        rcases hlk : cacheLookup st.detailsCache id with _ | d
        · rcases hf : fetch st.fetchCount id with e | dd
          · have hg : getPlaceDetails fetch st id
                = (none, ⟨st.detailsCache, st.fetchCount + 1⟩, true) := by
              unfold getPlaceDetails
              rw [hlk, hf]
            have ih' := ih ⟨st.detailsCache, st.fetchCount + 1⟩ id
            rw [hlk] at ih'
            rw [hg]
            simpa using ih'
          · have hg : getPlaceDetails fetch st id
                = (some dd, ⟨(id, dd) :: st.detailsCache, st.fetchCount + 1⟩,
                    true) := by
              unfold getPlaceDetails
              rw [hlk, hf]
            have ih' := ih ⟨(id, dd) :: st.detailsCache, st.fetchCount + 1⟩ id
            have hhit : cacheLookup ((id, dd) :: st.detailsCache) id = some dd := by
              simp [cacheLookup]
            simp only [cacheLookup] at ih'
            simp [hhit] at ih'
            rw [hg]
            simp [ih']
        · have hg : getPlaceDetails fetch st id = (some d, st, false) := by
            unfold getPlaceDetails
            rw [hlk]
          have ih' := ih st id
          rw [hlk] at ih'
          rw [hg]
          simpa using ih'
      · have hcache := getPlaceDetails_cache_stable fetch st pid id
        rcases hcache with hsame | ⟨heq, -⟩
        · have ih' := ih (getPlaceDetails fetch st id).2.1 pid
          rw [hsame] at ih'
          simpa [hid] using ih'
        · exact absurd heq hid

/-- C7 (amended): a cache hit answers without any external fetch; a
**successful** fetch populates the cache for its identifier (so later calls
for it are cache hits); across any sequence of calls at most one successful
external fetch is made per identifier — but a **failed** fetch is not cached,
so a later call for the same identifier fetches again. -/
theorem getPlaceDetails_cache_spec :
    (∀ (fetch : Nat → JSStr → Except JSError GooglePlaceDetails)
        (st : PlacesClientState) (placeId : JSStr) (d : GooglePlaceDetails),
        cacheLookup st.detailsCache placeId = some d →
        getPlaceDetails fetch st placeId = (some d, st, false))
    ∧ (∀ (fetch : Nat → JSStr → Except JSError GooglePlaceDetails)
        (st : PlacesClientState) (placeId : JSStr) (d : GooglePlaceDetails),
        (getPlaceDetails fetch st placeId).2.2 = true →
        (getPlaceDetails fetch st placeId).1 = some d →
        cacheLookup (getPlaceDetails fetch st placeId).2.1.detailsCache placeId
          = some d)
    ∧ (∀ (fetch : Nat → JSStr → Except JSError GooglePlaceDetails)
        (st : PlacesClientState) (ids : List JSStr) (placeId : JSStr),
        successFetchCountFor (runGetDetails fetch st ids) placeId
          ≤ (match cacheLookup st.detailsCache placeId with
             | some _ => 0
             | none => 1)) := by
  refine ⟨?_, ?_, fun fetch st ids placeId => successFetch_bound fetch ids st placeId⟩
  · intro fetch st placeId d h
    unfold getPlaceDetails
    rw [h]
  · intro fetch st placeId d hfetched hsome
    rcases hlk : cacheLookup st.detailsCache placeId with _ | d2
    · rcases hf : fetch st.fetchCount placeId with e | dd
      · have hg : getPlaceDetails fetch st placeId
            = (none, ⟨st.detailsCache, st.fetchCount + 1⟩, true) := by
          unfold getPlaceDetails
          rw [hlk, hf]
        rw [hg] at hsome
        simp at hsome
      · have hg : getPlaceDetails fetch st placeId
            = (some dd, ⟨(placeId, dd) :: st.detailsCache, st.fetchCount + 1⟩,
                true) := by
          unfold getPlaceDetails
          rw [hlk, hf]
        rw [hg] at hsome ⊢
        simp at hsome
        subst hsome
        simp [cacheLookup]
    · have hg : getPlaceDetails fetch st placeId = (some d2, st, false) := by
        unfold getPlaceDetails
        rw [hlk]
      rw [hg] at hfetched
      simp at hfetched

/-- A concrete details record. -/
def cachedDetails : GooglePlaceDetails :=
  { id := "p1".toList, displayName := none, rating := none,
    userRatingCount := none, types := none, location := none, reviews := none }

/-- A client state whose cache already holds `p1`. -/
def preloadedState : PlacesClientState :=
  { detailsCache := [("p1".toList, cachedDetails)], fetchCount := 0 }

/-- A fetch oracle that always succeeds. -/
def okFetch : Nat → JSStr → Except JSError GooglePlaceDetails :=
  fun _ _ => .ok cachedDetails

/-- A fetch oracle whose first call fails and later calls succeed. -/
def firstFailFetch : Nat → JSStr → Except JSError GooglePlaceDetails :=
  fun n _ =>
    if n = 0 then .error { message := "HTTP 404: not found".toList, status := some 404 }
    else .ok cachedDetails

/-- Witness for the amended C7 at concrete inputs: a preloaded cache answers
without fetching; a successful fetch lands in the cache; two calls from an
empty cache make at most one successful fetch. -/
theorem getPlaceDetails_cache_spec_witness :
    getPlaceDetails okFetch preloadedState "p1".toList
        = (some cachedDetails, preloadedState, false)
    ∧ cacheLookup (getPlaceDetails okFetch ⟨[], 0⟩ "p1".toList).2.1.detailsCache
        "p1".toList = some cachedDetails
    ∧ successFetchCountFor
        (runGetDetails okFetch ⟨[], 0⟩ ["p1".toList, "p1".toList]) "p1".toList ≤ 1 := by
  refine ⟨?_, ?_, ?_⟩
  · exact getPlaceDetails_cache_spec.1 okFetch preloadedState "p1".toList
      cachedDetails rfl
  · exact getPlaceDetails_cache_spec.2.1 okFetch ⟨[], 0⟩ "p1".toList
      cachedDetails rfl rfl
  · have h := getPlaceDetails_cache_spec.2.2 okFetch ⟨[], 0⟩
      ["p1".toList, "p1".toList] "p1".toList
    simpa using h

/-- C7 counterexample: from an empty cache, a failed detail fetch is not
cached — the second call for the same identifier performs a second external
fetch, contradicting "at most one external detail fetch per identifier,
including when an earlier call failed". -/
theorem details_refetch_counterexample :
    fetchCountFor
        (runGetDetails firstFailFetch { detailsCache := [], fetchCount := 0 }
          ["p1".toList, "p1".toList]) "p1".toList = 2
    ∧ ¬ (fetchCountFor
        (runGetDetails firstFailFetch { detailsCache := [], fetchCount := 0 }
          ["p1".toList, "p1".toList]) "p1".toList ≤ 1) := by
  exact ⟨by decide, by decide⟩

/-! ## Cell selection during loading (src/scripts/ingestCity.ts, `getGridCells`) -/

/-- The cell-selection step of `getGridCells`: unless `--force`, drop cells
whose identifier already has a persisted vibe score; then, when a (truthy)
limit is given, keep the first `limit` cells.  There is no offset/skip. -/
def selectCells (cells : List GridCell) (scoredIds : List JSStr)
    (options : CliOptions) : List GridCell :=
  let remaining :=
    if options.force then cells
    else cells.filter (fun c => !(scoredIds.contains c.id))
  match options.limit with
  | some l => if l ≠ 0 then remaining.take l else remaining
  | none => remaining

lemma take_head?_of_ne_zero {α : Type} (l : Nat) (hl : l ≠ 0) (xs : List α) :
    (xs.take l).head? = xs.head? := by
  cases l with
  | zero => exact absurd rfl hl
  | succ n => cases xs <;> simp

/-- C9 (amended): the run options are exactly city slug, force, dry-run and
limit — there is no offset; after the scored cells are subtracted (unless
force), only the limit is applied, so the selection is a prefix of the
remaining cells and in particular the first remaining cell is never
skipped. -/
theorem selectCells_spec :
    ∀ (cells : List GridCell) (scoredIds : List JSStr) (opts : CliOptions),
      (∃ n, selectCells cells scoredIds opts
          = (if opts.force then cells
             else cells.filter (fun c => !(scoredIds.contains c.id))).take n)
      ∧ (selectCells cells scoredIds opts).head?
          = (if opts.force then cells
             else cells.filter (fun c => !(scoredIds.contains c.id))).head? := by
  intro cells scoredIds opts
  rcases hl : opts.limit with _ | l
  · refine ⟨⟨(if opts.force then cells
        else cells.filter (fun c => !(scoredIds.contains c.id))).length, ?_⟩, ?_⟩
    · simp [selectCells, hl]
    · simp [selectCells, hl]
  · by_cases hz : l ≠ 0
    · refine ⟨⟨l, ?_⟩, ?_⟩
      · simp [selectCells, hl, hz]
      · simp only [selectCells, hl]
        rw [if_pos hz]
        exact take_head?_of_ne_zero l hz _
    · refine ⟨⟨(if opts.force then cells
          else cells.filter (fun c => !(scoredIds.contains c.id))).length, ?_⟩, ?_⟩
      · simp [selectCells, hl, hz]
      · simp [selectCells, hl, hz]

/-- A first grid cell. -/
def cellA : GridCell :=
  { id := "cell-A".toList, city_id := "sf".toList, centroid := "POINT(1 2)".toList }

/-- A second grid cell. -/
def cellB : GridCell :=
  { id := "cell-B".toList, city_id := "sf".toList, centroid := "POINT(3 4)".toList }

/-- C9 counterexample: with two unscored cells and limit 1, the selection is
the **first** remaining cell — no run option can exclude the first N
remaining cells, because `CliOptions` has no offset and `getGridCells`
applies only the limit. -/
theorem selectCells_counterexample :
    selectCells [cellA, cellB] []
        { citySlug := "sf".toList, force := false, dryRun := false, limit := some 1 }
      = [cellA]
    ∧ [cellA] ≠ [cellB] := by
  exact ⟨by decide, by decide⟩

end Heatmap
